import Mathlib

/-!
# XNNPACK execution provider: capability partitioning

A shallow embedding of `XnnpackExecutionProvider::GetCapability`
(`core/providers/xnnpack/xnnpack_execution_provider.cc`) and of
`AveragePool::IsAveragePoolOnnxNodeSupported`
(`core/providers/xnnpack/nn/average_pool.cc`), followed by theorems about them.
The Where + Softmax fusion transformer, of which the sources hold only the
declaration (`core/optimizer/fused_softmax_fusion.h`), is modelled from the
specification.

Conventions of the embedding.

* A `const Node*` is identified with the node's index: inside one graph the two
  determine each other (`graph.GetNode(idx)->Index() == idx`).
* A `const NodeUnit*` is a natural number, the position of the unit in
  `node_unit_holder`.
* A `ComputeCapability*` is the position of the capability in `capabilities`;
  the vector only ever grows and owns its elements through `unique_ptr`, so
  positions are as stable as the pointers.
* `std::unordered_set` / `std::unordered_map` are lists without repeated keys,
  with the insertion semantics of the standard containers.
* `abort()` and a failed `ORT_ENFORCE` end the pass; the outcome `fatal` keeps the
  state the pass was in at that moment.
* The two `printf`/name-comparison debugging branches of the loop body change no
  state and are left out.
-/

namespace Xnnpack

abbrev NodeIndex := Nat

/-! ## Containers -/

/-- Lookup in an association list: `unordered_map::find`. -/
def map_find {β : Type} (k : Nat) : List (Nat × β) → Option β
  | [] => none
  | (k0, v) :: m => if k0 = k then some v else map_find k m

/-- Insertion that keeps an existing entry: `unordered_map::insert`. -/
def map_insert {β : Type} (k : Nat) (v : β) (m : List (Nat × β)) : List (Nat × β) :=
  if (map_find k m).isSome then m else m ++ [(k, v)]

/-- Insert-or-overwrite: `m[k] = v`. -/
def map_assign {β : Type} (k : Nat) (v : β) : List (Nat × β) → List (Nat × β)
  | [] => [(k, v)]
  | (k0, v0) :: m => if k0 = k then (k, v) :: m else (k0, v0) :: map_assign k v m

/-- Set insertion: `unordered_set::insert`. -/
def set_insert (x : Nat) (l : List Nat) : List Nat :=
  if x ∈ l then l else l ++ [x]

/-- Apply `f` to the element at position `i`, if there is one. -/
def modify_at {α : Type} (f : α → α) : Nat → List α → List α
  | _, [] => []
  | 0, a :: l => f a :: l
  | i + 1, a :: l => a :: modify_at f i l

/-! ## Graph model -/

/-- The part of `Node` that `GetCapability` reads. -/
structure Node where
  Index : NodeIndex
  ExecutionProviderType : String
deriving DecidableEq, Repr

/-- The two values of `NodeUnit::Type`. -/
inductive NodeUnitType where
  | SingleNode
  | QDQGroup
deriving DecidableEq, Repr

/-- The part of `NodeUnit` that `GetCapability` reads: `Index` is
`GetNode().Index()`, the node lists are `GetInputNodes()` and `GetOutputNodes()`. -/
structure NodeUnit where
  UnitType : NodeUnitType
  InputNodes : List NodeIndex
  Index : NodeIndex
  OutputNodes : List NodeIndex
deriving DecidableEq, Repr

/-- The graph as `GetCapability` sees it. `provider idx = none` stands for
`graph.GetNode(idx) == nullptr`; `node_unit_holder` and `node_unit_map` are the
result of `GetAllNodeUnits(graph)`, whose code is outside these sources. -/
structure GraphViewer where
  NodesInTopologicalOrder : List NodeIndex
  provider : NodeIndex → Option String
  node_unit_map : NodeIndex → Nat
  node_unit_holder : Nat → NodeUnit

/-- The node at an index: `graph.GetNode(idx)`. -/
def GraphViewer.GetNode (graph : GraphViewer) (idx : NodeIndex) : Option Node :=
  (graph.provider idx).map (fun ep => { Index := idx, ExecutionProviderType := ep })

/-- The member nodes of a unit: input nodes, the core node, output nodes. -/
def NodeUnit.members (u : NodeUnit) : List NodeIndex :=
  u.InputNodes ++ [u.Index] ++ u.OutputNodes

/-! ## Claims and pass state -/

/-- An `IndexedSubGraph` owned by a `ComputeCapability`; `M` is the type of
`IndexedSubGraph::MetaDef`. -/
structure IndexedSubGraph (M : Type) where
  nodes : List NodeIndex
  meta_def : Option M
  use_existing_schema : Bool
deriving DecidableEq, Repr

/-- A call made to the support checker. -/
inductive OracleCall where
  | IsNodeSupported (unit : Nat)
  | IsNodeSupportedWithFusion (node : NodeIndex)
deriving DecidableEq, Repr

/-- The local variables of `GetCapability` that live across loop iterations.
`oracle_calls` is a ghost trace of the calls made to the support checker; the
algorithm never reads it. -/
structure PassState (M : Type) where
  capabilities : List (IndexedSubGraph M)
  supported_nodes : List NodeIndex
  node_to_compute_capability : List (NodeIndex × Nat)
  node_unit_supported_result : List (Nat × Bool)
  nodeIndex_map : List NodeIndex
  oracle_calls : List OracleCall
deriving DecidableEq, Repr

/-- The state at the start of a pass: every container empty. -/
def PassState.init (M : Type) : PassState M :=
  { capabilities := [], supported_nodes := [], node_to_compute_capability := [],
    node_unit_supported_result := [], nodeIndex_map := [], oracle_calls := [] }

/-- What `GetCapability` uses and these sources do not define: the provider
name returned by `Type()`, the two queries of `NodeSupportChecker` (which holds a
reference to `supported_nodes`, passed here as first argument), the two
descriptor builders, and the initial value of
`IndexedSubGraph::use_existing_schema`. -/
structure Externals (M : Type) where
  ProviderType : String
  IsNodeSupported : List NodeIndex → NodeUnit → Bool
  IsNodeSupportedWithFusion : List NodeIndex → Node → Option NodeIndex
  FuseActivation : NodeIndex → Node → M
  FuseQDQGroup : NodeUnit → M
  default_use_existing_schema : Bool

/-- Result of a piece of the pass: it ran to its end, or it hit `abort()` /
`ORT_ENFORCE`; `fatal` carries the state at that moment. -/
inductive Outcome (σ : Type) where
  | ok : σ → Outcome σ
  | fatal : σ → Outcome σ
deriving DecidableEq, Repr

/-- Sequencing: a fatal outcome stops everything after it. -/
def Outcome.bind {σ : Type} (r : Outcome σ) (f : σ → Outcome σ) : Outcome σ :=
  match r with
  | .ok s => f s
  | .fatal s => .fatal s

/-- True when the outcome is `ok`. -/
def Outcome.isOk {σ : Type} : Outcome σ → Bool
  | .ok _ => true
  | .fatal _ => false

/-! ## The pass -/

/-- The lambda `safe_push_node_index`, on the pair (vector, `nodeIndex_map`). -/
def safe_push_node_index (vni : List NodeIndex) (nodeIndex_map : List NodeIndex)
    (idx : NodeIndex) : Outcome (List NodeIndex × List NodeIndex) :=
  if idx ∉ nodeIndex_map then
    .ok (vni ++ [idx], set_insert idx nodeIndex_map)
  else
    .fatal (vni, nodeIndex_map)

/-- A `for` loop calling `safe_push_node_index` on each index of a list. -/
def safe_push_all : List NodeIndex → List NodeIndex × List NodeIndex →
    Outcome (List NodeIndex × List NodeIndex)
  | [], acc => .ok acc
  | i :: rest, acc => (safe_push_node_index acc.1 acc.2 i).bind (safe_push_all rest)

/-- The lambda `createSingleNode`; `node` is the node being visited, `inode` the
argument. -/
def createSingleNode {M : Type} (E : Externals M) (node : NodeIndex)
    (s : PassState M) (inode : NodeIndex) : Outcome (PassState M) :=
  match safe_push_node_index [] s.nodeIndex_map inode with
  | .fatal _ => .fatal s
  | .ok (nodes, seen) =>
    .ok { s with
      nodeIndex_map := seen,
      capabilities := s.capabilities ++
        [{ nodes := nodes, meta_def := none,
           use_existing_schema := E.default_use_existing_schema }],
      node_to_compute_capability :=
        map_insert node s.capabilities.length s.node_to_compute_capability,
      supported_nodes := set_insert node s.supported_nodes }

/-- A `for` loop calling `createSingleNode` on each node of a list. -/
def createSingleNodes {M : Type} (E : Externals M) (node : NodeIndex) :
    List NodeIndex → PassState M → Outcome (PassState M)
  | [], s => .ok s
  | i :: rest, s => (createSingleNode E node s i).bind (createSingleNodes E node rest)

/-- Lines 234-256: record the decision for the unit and, when the node is
requested, create one capability per member node. -/
def record_and_request {M : Type} (E : Externals M) (node : Node) (unit_ptr : Nat)
    (unit_node : NodeUnit) (request_node : Bool) (s : PassState M) :
    Outcome (PassState M) :=
  let s1 := { s with
    node_unit_supported_result :=
      map_assign unit_ptr request_node s.node_unit_supported_result }
  if request_node then
    ((createSingleNodes E node.Index unit_node.InputNodes s1).bind
      (fun s2 => createSingleNode E node.Index s2 unit_node.Index)).bind
      (createSingleNodes E node.Index
        (unit_node.OutputNodes.filter (fun o => o ≠ unit_node.Index)))
  else
    .ok s1

/-- Lines 183-194: fuse the activation `node` into the capability of
`fuse_with`. -/
def fuse_into {M : Type} (E : Externals M) (node : Node) (fuse_with : NodeIndex)
    (s : PassState M) : Outcome (PassState M) :=
  match map_find fuse_with s.node_to_compute_capability with
  | none => .fatal s
  | some c =>
    .ok { s with
      capabilities := modify_at
        (fun cap => { nodes := cap.nodes ++ [node.Index],
                      meta_def := some (E.FuseActivation fuse_with node),
                      use_existing_schema := true }) c s.capabilities }

/-- Lines 204-228: one capability for a whole quantize/dequantize group. -/
def request_qdq_group {M : Type} (E : Externals M) (unit_ptr : Nat)
    (unit_node : NodeUnit) (s : PassState M) : Outcome (PassState M) :=
  match ((safe_push_all unit_node.InputNodes ([], s.nodeIndex_map)).bind
      (fun acc => safe_push_node_index acc.1 acc.2 unit_node.Index)).bind
      (safe_push_all unit_node.OutputNodes) with
  | .fatal acc => .fatal { s with nodeIndex_map := acc.2 }
  | .ok acc =>
    .ok { s with
      nodeIndex_map := acc.2,
      capabilities := s.capabilities ++
        [{ nodes := acc.1, meta_def := some (E.FuseQDQGroup unit_node),
           use_existing_schema := true }],
      node_to_compute_capability :=
        map_insert unit_node.Index s.capabilities.length s.node_to_compute_capability,
      supported_nodes := set_insert unit_node.Index s.supported_nodes,
      node_unit_supported_result :=
        map_assign unit_ptr true s.node_unit_supported_result }

/-- One iteration of the loop over `graph.GetNodesInTopologicalOrder()`
(lines 139-257). -/
def visit {M : Type} (graph : GraphViewer) (E : Externals M) (s : PassState M)
    (idx : NodeIndex) : Outcome (PassState M) :=
  match graph.GetNode idx with
  | none => .ok s
  | some node =>
    let unit_ptr := graph.node_unit_map idx
    let unit_node := graph.node_unit_holder unit_ptr
    if (map_find unit_ptr s.node_unit_supported_result).isSome then
      .ok s
    else if node.ExecutionProviderType = "" then
      let s1 := { s with
        oracle_calls := s.oracle_calls ++ [OracleCall.IsNodeSupported unit_ptr] }
      if E.IsNodeSupported s.supported_nodes unit_node then
        record_and_request E node unit_ptr unit_node true s1
      else if unit_node.UnitType ≠ NodeUnitType.QDQGroup then
        let s2 := { s1 with
          oracle_calls := s1.oracle_calls ++ [OracleCall.IsNodeSupportedWithFusion idx] }
        match E.IsNodeSupportedWithFusion s.supported_nodes node with
        | some fuse_with =>
          (fuse_into E node fuse_with s2).bind
            (record_and_request E node unit_ptr unit_node false)
        | none => record_and_request E node unit_ptr unit_node false s2
      else
        record_and_request E node unit_ptr unit_node false s1
    else if node.ExecutionProviderType = E.ProviderType then
      if unit_node.UnitType = NodeUnitType.QDQGroup then
        request_qdq_group E unit_ptr unit_node s
      else
        record_and_request E node unit_ptr unit_node true s
    else
      .ok s

/-- The whole loop, from a given state. -/
def run_loop {M : Type} (graph : GraphViewer) (E : Externals M) :
    List NodeIndex → PassState M → Outcome (PassState M)
  | [], s => .ok s
  | idx :: rest, s => (visit graph E s idx).bind (run_loop graph E rest)

/-- The loop of a pass, from the empty state. -/
def run_pass {M : Type} (graph : GraphViewer) (E : Externals M) : Outcome (PassState M) :=
  run_loop graph E graph.NodesInTopologicalOrder (PassState.init M)

/-- `XnnpackExecutionProvider::GetCapability`: the capabilities built by the
loop, or nothing when the pass ended fatally. -/
def GetCapability {M : Type} (graph : GraphViewer) (E : Externals M) :
    Option (List (IndexedSubGraph M)) :=
  match run_pass graph E with
  | .ok s => some s.capabilities
  | .fatal _ => none

/-! ## Average-pool support check -/

/-- The `xnn_datatype` enumeration of the XNNPACK library. -/
inductive xnn_datatype where
  | xnn_datatype_invalid
  | xnn_datatype_fp32
  | xnn_datatype_fp16
  | xnn_datatype_qint8
  | xnn_datatype_quint8
  | xnn_datatype_qint32
  | xnn_datatype_qcint8
  | xnn_datatype_qcint32
deriving DecidableEq, Repr

/-- The `AutoPadType` enumeration. -/
inductive AutoPadType where
  | NOTSET
  | VALID
  | SAME_UPPER
  | SAME_LOWER
deriving DecidableEq, Repr

/-- A `NodeArg`: `Shape()` is a nullable pointer to a shape whose dimensions may
or may not carry a value. -/
structure NodeArg where
  Shape : Option (List (Option Int))
deriving DecidableEq, Repr

/-- The fields of `PoolAttributes` that the support check reads. -/
structure PoolAttributes where
  ceil_mode : Int
  auto_pad : AutoPadType
  kernel_shape : List Int
deriving DecidableEq, Repr

/-- What `IsAveragePoolOnnxNodeSupported` reads from its `NodeUnit` and graph.
`is_quantized_avg_pool` is `IsQuantizedAvgPool(GetQuantizedOpType(nodeunit))`;
`Inputs` holds the `node_arg` of each entry of `nodeunit.Inputs()`;
`x_input_type` and `output_type` are the two results of `GetDtypeInXnnpack`;
`pool_attrs` is the outcome of constructing `PoolAttributes` from the node, `none`
when that constructor (declared outside these sources) raises. -/
structure AveragePoolUnit where
  is_quantized_avg_pool : Bool
  Inputs : List NodeArg
  x_input_type : xnn_datatype
  output_type : xnn_datatype
  pool_attrs : Option PoolAttributes
deriving DecidableEq, Repr

/-- The static function `IsQuantAvgPoolSupported` (lines 71-89). -/
def IsQuantAvgPoolSupported (node_unit : AveragePoolUnit) : Bool :=
  if node_unit.Inputs.length ≠ 1 then
    false
  else if node_unit.x_input_type ≠ xnn_datatype.xnn_datatype_quint8 ∨
      node_unit.output_type ≠ xnn_datatype.xnn_datatype_quint8 then
    false
  else
    true

/-- `AveragePool::IsAveragePoolOnnxNodeSupported` (lines 92-144).
`IsPaddingTypeSupported` is declared outside these sources and is a parameter.
The result is `none` where the C++ has no defined result: `inputs[0]` on an empty
input list, or a raising `PoolAttributes` constructor. -/
def IsAveragePoolOnnxNodeSupported (IsPaddingTypeSupported : AutoPadType → Bool)
    (nodeunit : AveragePoolUnit) : Option Bool :=
  if nodeunit.is_quantized_avg_pool ∧ IsQuantAvgPoolSupported nodeunit = false then
    some false
  else
    match nodeunit.Inputs with
    | [] => none
    | x_arg :: _ =>
      match x_arg.Shape with
      | none => some false
      | some x_shape =>
        if x_shape.length ≠ 4 then
          some false
        else if (x_shape.getD 1 none).isNone ∨ (x_shape.getD 2 none).isNone ∨
            (x_shape.getD 3 none).isNone then
          some false
        else
          match nodeunit.pool_attrs with
          | none => none
          | some pool_attrs =>
            if pool_attrs.ceil_mode ≠ 0 then
              some false
            else if ¬ IsPaddingTypeSupported pool_attrs.auto_pad then
              some false
            else if pool_attrs.kernel_shape.length ≠ 2 ∨
                (pool_attrs.kernel_shape.getD 0 0 = 1 ∧
                  pool_attrs.kernel_shape.getD 1 0 = 1) then
              some false
            else
              some true

/-! ## Properties of graphs and states used in the statements -/

/-- The node-to-unit mapping is a partition: every member node of the unit of a
visited node maps to that same unit. -/
def UnitsPartition (graph : GraphViewer) : Prop :=
  ∀ idx ∈ graph.NodesInTopologicalOrder,
    ∀ m ∈ (graph.node_unit_holder (graph.node_unit_map idx)).members,
      graph.node_unit_map m = graph.node_unit_map idx

/-- States a pass can be in: the empty state, and whatever a successful
iteration on a node of the graph makes of such a state. -/
inductive Reachable {M : Type} (graph : GraphViewer) (E : Externals M) :
    PassState M → Prop where
  | init : Reachable graph E (PassState.init M)
  | step {s s1 : PassState M} {idx : NodeIndex} :
      Reachable graph E s → idx ∈ graph.NodesInTopologicalOrder →
      visit graph E s idx = Outcome.ok s1 → Reachable graph E s1

/-- The unit already has a decision in the memo. -/
def decided {M : Type} (s : PassState M) (unit_ptr : Nat) : Prop :=
  (map_find unit_ptr s.node_unit_supported_result).isSome = true

instance decided_decidable {M : Type} (s : PassState M) (unit_ptr : Nat) :
    Decidable (decided s unit_ptr) := by
  unfold decided
  infer_instance

/-- All node indices of all capabilities, in order. -/
def claimed_nodes {M : Type} (caps : List (IndexedSubGraph M)) : List NodeIndex :=
  (caps.map (fun c => c.nodes)).flatten

/-- The capability `createSingleNode` builds for one node. -/
def single_node_capability {M : Type} (E : Externals M) (i : NodeIndex) :
    IndexedSubGraph M :=
  { nodes := [i], meta_def := none, use_existing_schema := E.default_use_existing_schema }

/-- What activation fusion makes of a capability. -/
def fused_capability {M : Type} (E : Externals M) (fuse_with : NodeIndex) (node : Node)
    (cap : IndexedSubGraph M) : IndexedSubGraph M :=
  { nodes := cap.nodes ++ [node.Index],
    meta_def := some (E.FuseActivation fuse_with node),
    use_existing_schema := true }

/-- Every visited node is unassigned and is its own plain single-node unit: the
unit has no input nodes, and its output nodes are empty or only the node itself. -/
def PlainUnassignedGraph (graph : GraphViewer) : Prop :=
  ∀ idx ∈ graph.NodesInTopologicalOrder,
    graph.provider idx = some "" ∧
    (graph.node_unit_holder (graph.node_unit_map idx)).UnitType = NodeUnitType.SingleNode ∧
    (graph.node_unit_holder (graph.node_unit_map idx)).Index = idx ∧
    (graph.node_unit_holder (graph.node_unit_map idx)).InputNodes = [] ∧
    ((graph.node_unit_holder (graph.node_unit_map idx)).OutputNodes = [] ∨
      (graph.node_unit_holder (graph.node_unit_map idx)).OutputNodes = [idx])

/-- The nodes `record_and_request` creates capabilities for: input nodes, the
core node, and the output nodes other than the core node. -/
def requested_members (u : NodeUnit) : List NodeIndex :=
  u.InputNodes ++ [u.Index] ++ u.OutputNodes.filter (fun o => o ≠ u.Index)

/-- The state after `createSingleNode` has run on every node of `L`, all of
them fresh, while visiting `node`. -/
def after_create {M : Type} (E : Externals M) (node : NodeIndex) (L : List NodeIndex)
    (s : PassState M) : PassState M :=
  { s with
    nodeIndex_map := s.nodeIndex_map ++ L,
    capabilities := s.capabilities ++ L.map (single_node_capability E),
    node_to_compute_capability :=
      if L = [] then s.node_to_compute_capability
      else map_insert node s.capabilities.length s.node_to_compute_capability,
    supported_nodes := if L = [] then s.supported_nodes else set_insert node s.supported_nodes }

/-- A state grown by new capabilities `news` registered under the key `k`, with
the decision `b` recorded for unit `p` and `extra` oracle calls traced. -/
def grow {M : Type} (s : PassState M) (extra : List OracleCall) (p : Nat) (b : Bool)
    (k : NodeIndex) (news : List (IndexedSubGraph M)) : PassState M :=
  { capabilities := s.capabilities ++ news,
    supported_nodes := set_insert k s.supported_nodes,
    node_to_compute_capability :=
      map_insert k s.capabilities.length s.node_to_compute_capability,
    node_unit_supported_result := map_assign p b s.node_unit_supported_result,
    nodeIndex_map := s.nodeIndex_map ++ claimed_nodes news,
    oracle_calls := s.oracle_calls ++ extra }

/-- A state in which only a decision `b` for unit `p` was recorded and `extra`
oracle calls traced. -/
def decline {M : Type} (s : PassState M) (extra : List OracleCall) (p : Nat) (b : Bool) :
    PassState M :=
  { s with
    node_unit_supported_result := map_assign p b s.node_unit_supported_result,
    oracle_calls := s.oracle_calls ++ extra }

/-- A state in which the activation `node` was fused into capability `c`. -/
def fuse {M : Type} (E : Externals M) (s : PassState M) (extra : List OracleCall) (p : Nat)
    (fuse_with : NodeIndex) (node : Node) (c : Nat) : PassState M :=
  { s with
    capabilities := modify_at (fused_capability E fuse_with node) c s.capabilities,
    node_unit_supported_result := map_assign p false s.node_unit_supported_result,
    oracle_calls := s.oracle_calls ++ extra }

/-- Bookkeeping that holds in every state of a pass, whatever the graph:
back-map keys are exactly `supported_nodes`, back-map values point at existing
capabilities, every traced oracle call concerns a decided unit, no call is traced
twice, and every seen index is claimed. -/
structure Sync {M : Type} (graph : GraphViewer) (s : PassState M) : Prop where
  backmap_supported : ∀ k, k ∈ s.supported_nodes ↔
    (map_find k s.node_to_compute_capability).isSome = true
  backmap_valid : ∀ k c, map_find k s.node_to_compute_capability = some c →
    c < s.capabilities.length
  calls_native : ∀ p, OracleCall.IsNodeSupported p ∈ s.oracle_calls → decided s p
  calls_fusion : ∀ i, OracleCall.IsNodeSupportedWithFusion i ∈ s.oracle_calls →
    decided s (graph.node_unit_map i)
  calls_nodup : s.oracle_calls.Nodup
  seen_claimed : ∀ i ∈ s.nodeIndex_map, i ∈ claimed_nodes s.capabilities

/-- Bookkeeping that holds in every state of a pass over a graph whose units
form a partition: claimed nodes and back-map keys belong to decided units, and no
index is claimed twice. -/
structure Excl {M : Type} (graph : GraphViewer) (s : PassState M) : Prop where
  claimed_decided : ∀ i ∈ claimed_nodes s.capabilities, decided s (graph.node_unit_map i)
  claimed_nodup : (claimed_nodes s.capabilities).Nodup
  backmap_decided : ∀ k, (map_find k s.node_to_compute_capability).isSome = true →
    decided s (graph.node_unit_map k)

/-! ## Example graphs -/

/-- A checker and descriptor builders for the examples: the unit of node 0 is
natively supported, node 1 is an activation fusable onto node 0 once node 0 is
supported; a descriptor is the pair of nodes it was built from. -/
def example_externals : Externals (NodeIndex × NodeIndex) :=
  { ProviderType := "XnnpackExecutionProvider",
    IsNodeSupported := fun _ u => u.Index = 0,
    IsNodeSupportedWithFusion := fun sn node =>
      if node.Index = 1 ∧ 0 ∈ sn then some 0 else none,
    FuseActivation := fun fuse_with node => (fuse_with, node.Index),
    FuseQDQGroup := fun u => (u.Index, u.Index),
    default_use_existing_schema := false }

/-- A pool node 0 followed by a Relu node 1, both unassigned, each its own
single-node unit. -/
def pool_relu_graph : GraphViewer :=
  { NodesInTopologicalOrder := [0, 1],
    provider := fun i => if i < 2 then some "" else none,
    node_unit_map := fun i => i,
    node_unit_holder := fun p =>
      { UnitType := NodeUnitType.SingleNode, InputNodes := [], Index := p, OutputNodes := [p] } }

/-- A quantize/dequantize group tagged with this provider: dequantize node 0,
core node 1, quantize node 2, all in unit 0. -/
def qdq_graph : GraphViewer :=
  { NodesInTopologicalOrder := [0, 1, 2],
    provider := fun i => if i < 3 then some "XnnpackExecutionProvider" else none,
    node_unit_map := fun _ => 0,
    node_unit_holder := fun _ =>
      { UnitType := NodeUnitType.QDQGroup, InputNodes := [0], Index := 1, OutputNodes := [2] } }

/-- A single unassigned activation node 1 whose producer 0 is not in the graph
order and hence never claimed. -/
def orphan_relu_graph : GraphViewer :=
  { NodesInTopologicalOrder := [1],
    provider := fun i => if i < 2 then some "" else none,
    node_unit_map := fun i => i,
    node_unit_holder := fun p =>
      { UnitType := NodeUnitType.SingleNode, InputNodes := [], Index := p, OutputNodes := [p] } }

/-- A test double that reports node 1 fusable onto node 0 whether or not node 0
was ever claimed. -/
def crafted_externals : Externals (NodeIndex × NodeIndex) :=
  { example_externals with
    IsNodeSupported := fun _ _ => false,
    IsNodeSupportedWithFusion := fun _ node => if node.Index = 1 then some 0 else none }

/-- The example checker with no activation ever fusable. -/
def no_fusion_externals : Externals (NodeIndex × NodeIndex) :=
  { example_externals with IsNodeSupportedWithFusion := fun _ _ => none }

/-- An average-pool unit with a 1x1 kernel and an otherwise supported shape. -/
def one_by_one_pool : AveragePoolUnit :=
  { is_quantized_avg_pool := false,
    Inputs := [{ Shape := some [none, some 8, some 8, some 3] }],
    x_input_type := xnn_datatype.xnn_datatype_fp32,
    output_type := xnn_datatype.xnn_datatype_fp32,
    pool_attrs := some { ceil_mode := 0, auto_pad := AutoPadType.NOTSET, kernel_shape := [1, 1] } }

/-- A padding check for the examples: everything but `SAME_LOWER`. -/
def example_padding_check (auto_pad : AutoPadType) : Bool :=
  decide (auto_pad ≠ AutoPadType.SAME_LOWER)

/-- A checker whose native-support answer is the average-pool check of the given
unit, with no activation fusable. -/
def average_pool_externals (IsPaddingTypeSupported : AutoPadType → Bool)
    (nodeunit : AveragePoolUnit) : Externals (NodeIndex × NodeIndex) :=
  { example_externals with
    IsNodeSupported := fun _ _ =>
      IsAveragePoolOnnxNodeSupported IsPaddingTypeSupported nodeunit == some true,
    IsNodeSupportedWithFusion := fun _ _ => none }

/-- The conditions the specification lists for a supported average pool, in
its words: the unit is not a quantized average pool or it passes the quantized
check (exactly one input, input and output types both quantized uint8); the
first input has a known shape of rank exactly 4 whose dimensions 1, 2 and 3 have
static values; `ceil_mode` is 0; the padding type is accepted; `kernel_shape` has
exactly 2 entries that are not both 1. -/
def AveragePoolSupportedSpec (IsPaddingTypeSupported : AutoPadType → Bool)
    (nodeunit : AveragePoolUnit) : Prop :=
  (nodeunit.is_quantized_avg_pool = true →
    nodeunit.Inputs.length = 1 ∧
    nodeunit.x_input_type = xnn_datatype.xnn_datatype_quint8 ∧
    nodeunit.output_type = xnn_datatype.xnn_datatype_quint8) ∧
  (∃ x_arg rest x_shape, nodeunit.Inputs = x_arg :: rest ∧ x_arg.Shape = some x_shape ∧
    x_shape.length = 4 ∧
    (∃ c, x_shape[1]? = some (some c)) ∧ (∃ h, x_shape[2]? = some (some h)) ∧
    (∃ w, x_shape[3]? = some (some w))) ∧
  (∃ pool_attrs, nodeunit.pool_attrs = some pool_attrs ∧
    pool_attrs.ceil_mode = 0 ∧
    IsPaddingTypeSupported pool_attrs.auto_pad = true ∧
    pool_attrs.kernel_shape.length = 2 ∧
    pool_attrs.kernel_shape ≠ [1, 1])

/-- A float average pool with input shape [?, 8, 8, 3] and a 2x2 kernel. -/
def two_by_two_pool : AveragePoolUnit :=
  { is_quantized_avg_pool := false,
    Inputs := [{ Shape := some [none, some 8, some 8, some 3] }],
    x_input_type := xnn_datatype.xnn_datatype_fp32,
    output_type := xnn_datatype.xnn_datatype_fp32,
    pool_attrs := some { ceil_mode := 0, auto_pad := AutoPadType.NOTSET, kernel_shape := [2, 2] } }

/-! ## Pattern fusion transformer -/

/-- Modelled from the spec: a node of the graph the Pattern Fusion Transformer
rewrites (the `Graph` and `Node` classes and the body of
`FusedSoftmaxFusion::ApplyImpl` are outside these sources): a stable index, an
operator type, ordered input and output tensor slots named by value ids, and an
attribute set. -/
structure FusionNode where
  index : Nat
  op_type : String
  inputs : List Nat
  outputs : List Nat
  attributes : List (String × Int)
deriving DecidableEq, Repr

/-- Modelled from the spec: the graph the transformer mutates, as its nodes
and the values that are graph outputs. -/
structure FusionGraph where
  nodes : List FusionNode
  outputs : List Nat
deriving DecidableEq, Repr

/-- Modelled from the spec: the fixed structural pattern, a producer
operator type (the anchor), the consumer operator type with its attribute
precondition, and the operator type of the fused node. -/
structure FusionPattern where
  anchor_op : String
  consumer_op : String
  consumer_ok : FusionNode → Bool
  fused_op : String

/-- Modelled from the spec: the nodes that consume a value. -/
def FusionGraph.consumers (graph : FusionGraph) (v : Nat) : List FusionNode :=
  graph.nodes.filter (fun n => v ∈ n.inputs)

/-- Modelled from the spec: the node with a given index, if it is still in
the graph. -/
def FusionGraph.GetNode (graph : FusionGraph) (i : Nat) : Option FusionNode :=
  graph.nodes.find? (fun n => n.index = i)

/-- Modelled from the spec: an index no node of the graph uses. -/
def FusionGraph.fresh_index (graph : FusionGraph) : Nat :=
  (graph.nodes.map (fun n => n.index)).foldl max 0 + 1

/-- Modelled from the spec: the checks made on a node whose operator type
matches the anchor: (a) its output has exactly one consumer, (b) the consumer's
operator type and attributes satisfy the pattern, (c) the intermediate value is
not a graph output. The result is the consumer, or nothing on any mismatch. -/
def match_pattern (pat : FusionPattern) (graph : FusionGraph) (anchor : FusionNode) :
    Option FusionNode :=
  if anchor.op_type = pat.anchor_op then
    match anchor.outputs with
    | [v] =>
      match graph.consumers v with
      | [c] =>
        if c.op_type = pat.consumer_op ∧ pat.consumer_ok c = true ∧ v ∉ graph.outputs then
          some c
        else
          none
      | _ => none
    | _ => none
  else
    none

/-- Modelled from the spec: replace the matched nodes by one new node that
carries the merged attributes, takes the anchor's inputs and produces the
consumer's outputs; the matched originals are removed. -/
def fuse_nodes (pat : FusionPattern) (graph : FusionGraph) (anchor c : FusionNode) :
    FusionGraph :=
  { nodes :=
      graph.nodes.filter (fun n => decide (n ≠ anchor) && decide (n ≠ c)) ++
        [{ index := graph.fresh_index, op_type := pat.fused_op, inputs := anchor.inputs,
           outputs := c.outputs, attributes := anchor.attributes ++ c.attributes }],
    outputs := graph.outputs }

/-- Modelled from the spec: one scan over the node indices taken at the
start of the call; every match is fused on the spot and sets the modified flag. -/
def scan_nodes (pat : FusionPattern) : List Nat → FusionGraph → Bool → FusionGraph × Bool
  | [], graph, modified => (graph, modified)
  | i :: rest, graph, modified =>
    match graph.GetNode i with
    | none => scan_nodes pat rest graph modified
    | some anchor =>
      match match_pattern pat graph anchor with
      | some c => scan_nodes pat rest (fuse_nodes pat graph anchor c) true
      | none => scan_nodes pat rest graph modified

/-- Modelled from the spec: `FusedSoftmaxFusion::ApplyImpl`, of which only the
declaration is in these sources: the pattern scan for a `Where` node feeding a
`Softmax` node; it returns the rewritten graph and the modified flag. The
operator type of the fused node and the attribute precondition on the `Softmax`
node are parameters. -/
def FusedSoftmaxFusion.ApplyImpl (fused_op : String) (consumer_ok : FusionNode → Bool)
    (graph : FusionGraph) : FusionGraph × Bool :=
  scan_nodes
    { anchor_op := "Where", consumer_op := "Softmax", consumer_ok := consumer_ok,
      fused_op := fused_op }
    (graph.nodes.map (fun n => n.index)) graph false

/-- Modelled from the spec: the external fixed-point driver, which calls the
transformer until it reports no modification; `none` when the given number of
calls did not suffice. -/
def run_to_fixed_point (fused_op : String) (consumer_ok : FusionNode → Bool) :
    Nat → FusionGraph → Option FusionGraph
  | 0, _ => none
  | fuel + 1, graph =>
    if (FusedSoftmaxFusion.ApplyImpl fused_op consumer_ok graph).2 = true then
      run_to_fixed_point fused_op consumer_ok fuel
        (FusedSoftmaxFusion.ApplyImpl fused_op consumer_ok graph).1
    else
      some (FusedSoftmaxFusion.ApplyImpl fused_op consumer_ok graph).1

/-- A `Where` node 0 with inputs 1, 2, 3 feeding value 4 to a `Softmax` node 1
whose output 5 is the graph output. -/
def where_softmax_graph : FusionGraph :=
  { nodes := [{ index := 0, op_type := "Where", inputs := [1, 2, 3], outputs := [4],
                attributes := [] },
              { index := 1, op_type := "Softmax", inputs := [4], outputs := [5],
                attributes := [("axis", -1)] }],
    outputs := [5] }

/-! ## Example graphs with quantize/dequantize groups in phase 1 and of mixed providers -/

/-- The example checker with the unit of core node 1 natively supported and no
activation fusable. -/
def group_externals : Externals (NodeIndex × NodeIndex) :=
  { example_externals with
    IsNodeSupported := fun _ u => u.Index = 1,
    IsNodeSupportedWithFusion := fun _ _ => none }

/-- A quantize/dequantize group with two dequantize inputs, all nodes
unassigned: `GetInputNodes()` lists node 3 (first input slot) before node 0
(second input slot), the core node is 1, the quantize node is 2; the topological
order visits node 0 first. Every node maps to the one unit 0. -/
def two_input_group_graph : GraphViewer :=
  { NodesInTopologicalOrder := [0, 3, 1, 2],
    provider := fun i => if i < 4 then some "" else none,
    node_unit_map := fun _ => 0,
    node_unit_holder := fun _ =>
      { UnitType := NodeUnitType.QDQGroup, InputNodes := [3, 0], Index := 1,
        OutputNodes := [2] } }

/-- The group of `qdq_graph` in phase 2 with its dequantize node 0 assigned to
another provider: nodes 1 and 2 carry this provider's name. -/
def mixed_group_graph : GraphViewer :=
  { NodesInTopologicalOrder := [0, 1, 2],
    provider := fun i =>
      if i = 0 then some "CPUExecutionProvider"
      else if i < 3 then some "XnnpackExecutionProvider" else none,
    node_unit_map := fun _ => 0,
    node_unit_holder := fun _ =>
      { UnitType := NodeUnitType.QDQGroup, InputNodes := [0], Index := 1, OutputNodes := [2] } }

/-- The same group in phase 1 with its dequantize node 0 assigned to another
provider and nodes 1 and 2 unassigned. -/
def mixed_unassigned_group_graph : GraphViewer :=
  { NodesInTopologicalOrder := [0, 1, 2],
    provider := fun i =>
      if i = 0 then some "CPUExecutionProvider" else if i < 3 then some "" else none,
    node_unit_map := fun _ => 0,
    node_unit_holder := fun _ =>
      { UnitType := NodeUnitType.QDQGroup, InputNodes := [0], Index := 1, OutputNodes := [2] } }

/-- A node the partitioner acts on when it visits it: unassigned, or tagged
with this provider. -/
def eligible {M : Type} (graph : GraphViewer) (E : Externals M) (n : NodeIndex) : Prop :=
  graph.provider n = some "" ∨ graph.provider n = some E.ProviderType

/-! ## Containers: basic facts -/

theorem map_find_append {β : Type} (k : Nat) (m1 m2 : List (Nat × β)) :
    map_find k (m1 ++ m2) =
      match map_find k m1 with
      | some v => some v
      | none => map_find k m2 := by
  induction m1 with
  | nil => simp [map_find]
  | cons a m1 ih =>
    obtain ⟨k0, v0⟩ := a
    by_cases h : k0 = k
    · simp [map_find, h]
    · simp [map_find, h, ih]

theorem map_find_insert {β : Type} (k k0 : Nat) (v : β) (m : List (Nat × β)) :
    map_find k0 (map_insert k v m) =
      match map_find k0 m with
      | some w => some w
      | none => if k = k0 then some v else none := by
  unfold map_insert
  by_cases h : (map_find k m).isSome
  · simp only [h, if_true]
    cases hk : map_find k0 m with
    | some w => rfl
    | none =>
      by_cases e : k = k0
      · subst e; simp [hk] at h
      · simp [e]
  · simp only [h, Bool.false_eq_true, if_false, map_find_append]
    cases hk : map_find k0 m with
    | some w => rfl
    | none => simp [map_find]

theorem map_find_assign {β : Type} (k k0 : Nat) (v : β) (m : List (Nat × β)) :
    map_find k0 (map_assign k v m) = if k = k0 then some v else map_find k0 m := by
  induction m with
  | nil => simp [map_assign, map_find]
  | cons a m ih =>
    obtain ⟨k1, v1⟩ := a
    by_cases h : k1 = k
    · subst h
      by_cases e : k1 = k0 <;> simp [map_assign, map_find, e]
    · by_cases e : k = k0
      · subst e; simp [map_assign, map_find, h, ih]
      · simp [map_assign, map_find, h, ih, e]

theorem map_insert_of_isSome {β : Type} (k : Nat) (v : β) (m : List (Nat × β))
    (h : (map_find k m).isSome = true) : map_insert k v m = m := by
  simp [map_insert, h]

theorem map_find_insert_self_isSome {β : Type} (k : Nat) (v : β) (m : List (Nat × β)) :
    (map_find k (map_insert k v m)).isSome = true := by
  rw [map_find_insert]
  cases map_find k m <;> simp

theorem mem_set_insert (x y : Nat) (l : List Nat) :
    y ∈ set_insert x l ↔ y = x ∨ y ∈ l := by
  unfold set_insert
  by_cases h : x ∈ l
  · simp only [h, if_true]
    constructor
    · intro hy; exact Or.inr hy
    · rintro (rfl | hy)
      · exact h
      · exact hy
  · simp only [h, if_false, List.mem_append, List.mem_singleton]
    tauto

theorem set_insert_of_not_mem (x : Nat) (l : List Nat) (h : x ∉ l) :
    set_insert x l = l ++ [x] := by
  simp [set_insert, h]

theorem set_insert_of_mem (x : Nat) (l : List Nat) (h : x ∈ l) :
    set_insert x l = l := by
  simp [set_insert, h]

theorem modify_at_length {α : Type} (f : α → α) (i : Nat) (l : List α) :
    (modify_at f i l).length = l.length := by
  induction l generalizing i with
  | nil => cases i <;> rfl
  | cons a l ih =>
    cases i with
    | zero => rfl
    | succ i => simp [modify_at, ih]

theorem modify_at_getElem? {α : Type} (f : α → α) (i j : Nat) (l : List α) :
    (modify_at f i l)[j]? = if j = i then (l[j]?).map f else l[j]? := by
  induction l generalizing i j with
  | nil => cases i <;> simp [modify_at]
  | cons a l ih =>
    cases i with
    | zero =>
      cases j with
      | zero => simp [modify_at]
      | succ j => simp [modify_at]
    | succ i =>
      cases j with
      | zero => simp [modify_at]
      | succ j => simp [modify_at, ih]

/-! ## The safe insert -/

/-- C5: `safe_push_node_index` on an index that has not been seen appends it at
the end of the list and records it in the seen set (which gains exactly that
index); on an index that has been seen it takes the fatal path with list and seen
set as they were, so it never returns a deduplicated list; and after a successful
insertion of an index, inserting the same index again into any list is fatal. -/
theorem safe_push_node_index_spec (vni seen : List NodeIndex) (idx : NodeIndex) :
    (idx ∉ seen →
      safe_push_node_index vni seen idx = Outcome.ok (vni ++ [idx], set_insert idx seen) ∧
      (∀ y, y ∈ set_insert idx seen ↔ y = idx ∨ y ∈ seen)) ∧
    (idx ∈ seen → safe_push_node_index vni seen idx = Outcome.fatal (vni, seen)) ∧
    (∀ r, safe_push_node_index vni seen idx = Outcome.ok r →
      ∀ w, safe_push_node_index w r.2 idx = Outcome.fatal (w, r.2)) := by
  refine ⟨?_, ?_, ?_⟩
  · intro h
    exact ⟨by simp [safe_push_node_index, h], fun y => mem_set_insert idx y seen⟩
  · intro h
    simp [safe_push_node_index, h]
  · intro r hr w
    by_cases h : idx ∈ seen
    · simp [safe_push_node_index, h] at hr
    · simp only [safe_push_node_index, h, not_false_eq_true, if_true, Outcome.ok.injEq] at hr
      subst hr
      have : idx ∈ set_insert idx seen := (mem_set_insert idx idx seen).2 (Or.inl rfl)
      simp [safe_push_node_index, this]

/-- C5 at a concrete input: inserting 7 into the list [3] twice. -/
theorem safe_push_node_index_spec_witness :
    safe_push_node_index [3] [3] 7 = Outcome.ok ([3, 7], [3, 7]) ∧
    safe_push_node_index [3, 7] [3, 7] 7 = Outcome.fatal ([3, 7], [3, 7]) :=
  ⟨((safe_push_node_index_spec [3] [3] 7).1 (by decide)).1,
   (safe_push_node_index_spec [3, 7] [3, 7] 7).2.1 (by decide)⟩

/-! ## Outcomes of the loops over member nodes -/

theorem safe_push_all_append (L1 L2 : List NodeIndex) (acc : List NodeIndex × List NodeIndex) :
    safe_push_all (L1 ++ L2) acc = (safe_push_all L1 acc).bind (safe_push_all L2) := by
  induction L1 generalizing acc with
  | nil => rfl
  | cons i rest ih =>
    simp only [List.cons_append, safe_push_all]
    cases safe_push_node_index acc.1 acc.2 i with
    | ok m => simp [Outcome.bind, ih]
    | fatal m => rfl

theorem safe_push_all_ok_iff (L vni seen : List NodeIndex) (r : List NodeIndex × List NodeIndex) :
    safe_push_all L (vni, seen) = Outcome.ok r ↔
      L.Nodup ∧ (∀ m ∈ L, m ∉ seen) ∧ r = (vni ++ L, seen ++ L) := by
  induction L generalizing vni seen with
  | nil => simp [safe_push_all, eq_comm]
  | cons i rest ih =>
    by_cases h : i ∈ seen
    · simp [safe_push_all, safe_push_node_index, h, Outcome.bind]
    · have step : safe_push_all (i :: rest) (vni, seen) =
          safe_push_all rest (vni ++ [i], seen ++ [i]) := by
        simp [safe_push_all, safe_push_node_index, h, Outcome.bind, set_insert_of_not_mem]
      rw [step, ih]
      constructor
      · rintro ⟨h1, h2, h3⟩
        refine ⟨List.nodup_cons.2 ⟨fun hi => h2 i hi (by simp), h1⟩, ?_, ?_⟩
        · intro m hm hms
          rcases List.mem_cons.1 hm with rfl | hm
          · exact h hms
          · exact h2 m hm (by simp [hms])
        · simpa using h3
      · rintro ⟨h1, h2, h3⟩
        have hn := List.nodup_cons.1 h1
        refine ⟨hn.2, ?_, ?_⟩
        · intro m hm hmem
          rcases List.mem_append.1 hmem with hms | hms
          · exact h2 m (List.mem_cons_of_mem _ hm) hms
          · rw [List.mem_singleton] at hms
            subst hms
            exact hn.1 hm
        · simpa using h3

theorem createSingleNodes_append {M : Type} (E : Externals M) (node : NodeIndex)
    (L1 L2 : List NodeIndex) (s : PassState M) :
    createSingleNodes E node (L1 ++ L2) s =
      (createSingleNodes E node L1 s).bind (createSingleNodes E node L2) := by
  induction L1 generalizing s with
  | nil => rfl
  | cons i rest ih =>
    simp only [List.cons_append, createSingleNodes]
    cases createSingleNode E node s i with
    | ok m => simp [Outcome.bind, ih]
    | fatal m => rfl

theorem createSingleNodes_singleton {M : Type} (E : Externals M) (node i : NodeIndex)
    (s : PassState M) : createSingleNodes E node [i] s = createSingleNode E node s i := by
  simp only [createSingleNodes]
  cases createSingleNode E node s i <;> rfl

theorem createSingleNode_eq {M : Type} (E : Externals M) (node i : NodeIndex)
    (s : PassState M) :
    createSingleNode E node s i =
      if i ∈ s.nodeIndex_map then Outcome.fatal s else Outcome.ok (after_create E node [i] s) := by
  by_cases h : i ∈ s.nodeIndex_map
  · simp [createSingleNode, safe_push_node_index, h]
  · simp [createSingleNode, safe_push_node_index, h, after_create, set_insert_of_not_mem,
      single_node_capability]

theorem after_create_cons {M : Type} (E : Externals M) (node i : NodeIndex)
    (rest : List NodeIndex) (s : PassState M) :
    after_create E node rest (after_create E node [i] s) = after_create E node (i :: rest) s := by
  by_cases hr : rest = []
  · subst hr
    simp [after_create]
  · have h1 : map_insert node (s.capabilities.length + 1)
        (map_insert node s.capabilities.length s.node_to_compute_capability) =
        map_insert node s.capabilities.length s.node_to_compute_capability :=
      map_insert_of_isSome _ _ _ (map_find_insert_self_isSome _ _ _)
    have h2 : set_insert node (set_insert node s.supported_nodes) =
        set_insert node s.supported_nodes :=
      set_insert_of_mem _ _ ((mem_set_insert _ _ _).2 (Or.inl rfl))
    simp [after_create, hr, h1, h2]

theorem createSingleNodes_ok_iff {M : Type} (E : Externals M) (node : NodeIndex)
    (L : List NodeIndex) (s s1 : PassState M) :
    createSingleNodes E node L s = Outcome.ok s1 ↔
      L.Nodup ∧ (∀ m ∈ L, m ∉ s.nodeIndex_map) ∧ s1 = after_create E node L s := by
  induction L generalizing s with
  | nil =>
    simp only [createSingleNodes, Outcome.ok.injEq, List.nodup_nil, List.not_mem_nil,
      false_imp_iff, implies_true, true_and]
    have : after_create E node [] s = s := by simp [after_create]
    rw [this]
    exact eq_comm
  | cons i rest ih =>
    simp only [createSingleNodes, createSingleNode_eq]
    by_cases h : i ∈ s.nodeIndex_map
    · simp [h, Outcome.bind]
    · simp only [h, if_false, Outcome.bind, ih, after_create_cons, List.nodup_cons,
        List.mem_cons, forall_eq_or_imp, not_false_eq_true, true_and]
      have hseen : (after_create E node [i] s).nodeIndex_map = s.nodeIndex_map ++ [i] := by
        simp [after_create]
      rw [hseen]
      constructor
      · rintro ⟨h1, h2, h3⟩
        refine ⟨⟨fun hi => h2 i hi (by simp), h1⟩, fun m hm hms => h2 m hm (by simp [hms]), h3⟩
      · rintro ⟨⟨h1, h2⟩, h3, h4⟩
        refine ⟨h2, fun m hm => ?_, h4⟩
        intro hmem
        rcases List.mem_append.1 hmem with hms | hms
        · exact h3 m hm hms
        · simp only [List.mem_singleton] at hms
          subst hms
          exact h1 hm

theorem record_and_request_true {M : Type} (E : Externals M) (node : Node) (p : Nat)
    (u : NodeUnit) (s : PassState M) :
    record_and_request E node p u true s =
      createSingleNodes E node.Index (requested_members u)
        { s with node_unit_supported_result := map_assign p true s.node_unit_supported_result } := by
  have hc : (fun s2 => createSingleNode E node.Index s2 u.Index) =
      createSingleNodes E node.Index [u.Index] :=
    funext (fun s2 => (createSingleNodes_singleton E node.Index u.Index s2).symm)
  simp only [record_and_request, if_true, requested_members, createSingleNodes_append, hc]

theorem record_and_request_false {M : Type} (E : Externals M) (node : Node) (p : Nat)
    (u : NodeUnit) (s : PassState M) :
    record_and_request E node p u false s = Outcome.ok (decline s [] p false) := by
  simp [record_and_request, decline]

theorem requested_members_ne_nil (u : NodeUnit) : requested_members u ≠ [] := by
  simp [requested_members]

theorem claimed_nodes_map_single {M : Type} (E : Externals M) (L : List NodeIndex) :
    claimed_nodes (L.map (single_node_capability E)) = L := by
  induction L with
  | nil => rfl
  | cons i rest ih =>
    simp only [claimed_nodes, List.map_cons, List.flatten_cons] at ih ⊢
    rw [ih]
    rfl

theorem claimed_nodes_append {M : Type} (a b : List (IndexedSubGraph M)) :
    claimed_nodes (a ++ b) = claimed_nodes a ++ claimed_nodes b := by
  simp [claimed_nodes]

theorem requested_members_subset (u : NodeUnit) : ∀ m ∈ requested_members u, m ∈ u.members := by
  intro m hm
  simp only [requested_members, NodeUnit.members, List.mem_append, List.mem_singleton,
    List.mem_filter] at hm ⊢
  tauto

/-! ## The shape of one iteration -/

theorem safe_push_all_singleton (i : NodeIndex) (acc : List NodeIndex × List NodeIndex) :
    safe_push_all [i] acc = safe_push_node_index acc.1 acc.2 i := by
  simp only [safe_push_all]
  cases safe_push_node_index acc.1 acc.2 i <;> rfl

theorem qdq_pushes_eq (u : NodeUnit) (acc : List NodeIndex × List NodeIndex) :
    ((safe_push_all u.InputNodes acc).bind
      (fun a => safe_push_node_index a.1 a.2 u.Index)).bind (safe_push_all u.OutputNodes) =
      safe_push_all u.members acc := by
  have hc : (fun a : List NodeIndex × List NodeIndex => safe_push_node_index a.1 a.2 u.Index) =
      safe_push_all [u.Index] :=
    funext (fun a => (safe_push_all_singleton u.Index a).symm)
  simp only [NodeUnit.members, safe_push_all_append, hc]

/-- The capability built for a quantize/dequantize group. -/
theorem request_qdq_group_ok_iff {M : Type} (E : Externals M) (p : Nat) (u : NodeUnit)
    (s s1 : PassState M) :
    request_qdq_group E p u s = Outcome.ok s1 ↔
      u.members.Nodup ∧ (∀ m ∈ u.members, m ∉ s.nodeIndex_map) ∧
      s1 = grow s [] p true u.Index
        [{ nodes := u.members, meta_def := some (E.FuseQDQGroup u),
           use_existing_schema := true }] := by
  unfold request_qdq_group
  rw [qdq_pushes_eq]
  cases hr : safe_push_all u.members ([], s.nodeIndex_map) with
  | fatal acc =>
    constructor
    · intro h
      cases h
    · rintro ⟨h1, h2, _⟩
      have := (safe_push_all_ok_iff u.members [] s.nodeIndex_map
        ([] ++ u.members, s.nodeIndex_map ++ u.members)).2 ⟨h1, h2, rfl⟩
      rw [hr] at this
      cases this
  | ok acc =>
    have h := (safe_push_all_ok_iff u.members [] s.nodeIndex_map acc).1 hr
    obtain ⟨h1, h2, h3⟩ := h
    subst h3
    simp only [Outcome.ok.injEq, h1, true_and]
    constructor
    · intro e
      refine ⟨h2, ?_⟩
      rw [← e]
      simp [grow, claimed_nodes]
    · rintro ⟨_, e⟩
      rw [e]
      simp [grow, claimed_nodes]

theorem GetNode_eq_some (g : GraphViewer) (idx : NodeIndex) (node : Node)
    (h : g.GetNode idx = some node) :
    node.Index = idx ∧ g.provider idx = some node.ExecutionProviderType := by
  unfold GraphViewer.GetNode at h
  cases hp : g.provider idx with
  | none => simp [hp] at h
  | some ep =>
    simp only [hp, Option.map_some', Option.some.injEq] at h
    subst h
    exact ⟨rfl, rfl⟩

theorem native_request_eq {M : Type} (E : Externals M) (node : Node) (p : Nat) (u : NodeUnit)
    (s s1 : PassState M) (extra : List OracleCall) :
    record_and_request E node p u true { s with oracle_calls := s.oracle_calls ++ extra } =
        Outcome.ok s1 ↔
      (requested_members u).Nodup ∧ (∀ m ∈ requested_members u, m ∉ s.nodeIndex_map) ∧
      s1 = grow s extra p true node.Index
        ((requested_members u).map (single_node_capability E)) := by
  rw [record_and_request_true, createSingleNodes_ok_iff]
  have e : after_create E node.Index (requested_members u)
      { capabilities := s.capabilities, supported_nodes := s.supported_nodes,
        node_to_compute_capability := s.node_to_compute_capability,
        node_unit_supported_result := map_assign p true s.node_unit_supported_result,
        nodeIndex_map := s.nodeIndex_map, oracle_calls := s.oracle_calls ++ extra } =
      grow s extra p true node.Index ((requested_members u).map (single_node_capability E)) := by
    simp [after_create, grow, requested_members_ne_nil, claimed_nodes_map_single]
  simp only [e]

/-- What a successful iteration does to the state: nothing; or it records a
decision; or it fuses the node into an existing capability; or it appends new
capabilities made of fresh, pairwise different member nodes of the unit. -/
theorem visit_ok_cases {M : Type} (g : GraphViewer) (E : Externals M) (s s1 : PassState M)
    (idx : NodeIndex) (h : visit g E s idx = Outcome.ok s1) :
    s1 = s ∨
    (¬ decided s (g.node_unit_map idx) ∧
      ∃ extra : List OracleCall, extra.Nodup ∧
        (∀ c ∈ extra, c = OracleCall.IsNodeSupported (g.node_unit_map idx) ∨
          c = OracleCall.IsNodeSupportedWithFusion idx) ∧
        ((∃ b, s1 = decline s extra (g.node_unit_map idx) b) ∨
         (∃ P c node, node.Index = idx ∧
            map_find P s.node_to_compute_capability = some c ∧
            s1 = fuse E s extra (g.node_unit_map idx) P node c) ∨
         (∃ b k news,
            (∀ m ∈ claimed_nodes news,
              m ∈ (g.node_unit_holder (g.node_unit_map idx)).members) ∧
            (claimed_nodes news).Nodup ∧
            (∀ m ∈ claimed_nodes news, m ∉ s.nodeIndex_map) ∧
            news ≠ [] ∧
            (k = idx ∨ k = (g.node_unit_holder (g.node_unit_map idx)).Index) ∧
            s1 = grow s extra (g.node_unit_map idx) b k news))) := by
  unfold visit at h
  cases hg : g.GetNode idx with
  | none =>
    simp only [hg, Outcome.ok.injEq] at h
    exact Or.inl h.symm
  | some node =>
    obtain ⟨hidx, _⟩ := GetNode_eq_some g idx node hg
    simp only [hg] at h
    by_cases hd : (map_find (g.node_unit_map idx) s.node_unit_supported_result).isSome = true
    · simp only [hd, if_true, Outcome.ok.injEq] at h
      exact Or.inl h.symm
    · simp only [hd, Bool.false_eq_true, if_false] at h
      by_cases hu : node.ExecutionProviderType = ""
      · refine Or.inr ⟨hd, ?_⟩
        simp only [hu, if_true] at h
        by_cases hs : E.IsNodeSupported s.supported_nodes
            (g.node_unit_holder (g.node_unit_map idx)) = true
        · simp only [hs, if_true] at h
          rw [native_request_eq] at h
          obtain ⟨h1, h2, h3⟩ := h
          refine ⟨[OracleCall.IsNodeSupported (g.node_unit_map idx)], by simp, by simp, ?_⟩
          refine Or.inr (Or.inr ⟨true, idx,
            (requested_members (g.node_unit_holder (g.node_unit_map idx))).map
              (single_node_capability E), ?_, ?_, ?_,
            by simp [requested_members_ne_nil], Or.inl rfl, ?_⟩)
          · rw [claimed_nodes_map_single]
            exact requested_members_subset _
          · rw [claimed_nodes_map_single]
            exact h1
          · rw [claimed_nodes_map_single]
            exact h2
          · rw [h3, hidx]
        · simp only [hs, Bool.false_eq_true, if_false] at h
          by_cases hq : (g.node_unit_holder (g.node_unit_map idx)).UnitType =
              NodeUnitType.QDQGroup
          · simp only [hq, ne_eq, not_true_eq_false, if_false, record_and_request_false,
              Outcome.ok.injEq] at h
            refine ⟨[OracleCall.IsNodeSupported (g.node_unit_map idx)], by simp, by simp, ?_⟩
            refine Or.inl ⟨false, ?_⟩
            rw [← h]
            simp [decline]
          · simp only [hq, ne_eq, not_false_eq_true, if_true] at h
            refine ⟨[OracleCall.IsNodeSupported (g.node_unit_map idx),
              OracleCall.IsNodeSupportedWithFusion idx], by simp, by simp, ?_⟩
            cases hf : E.IsNodeSupportedWithFusion s.supported_nodes node with
            | none =>
              simp only [hf, record_and_request_false, Outcome.ok.injEq] at h
              refine Or.inl ⟨false, ?_⟩
              rw [← h]
              simp [decline]
            | some P =>
              simp only [hf, fuse_into] at h
              cases hm : map_find P s.node_to_compute_capability with
              | none => simp [hm, Outcome.bind] at h
              | some c =>
                simp only [hm, Outcome.bind, record_and_request_false, Outcome.ok.injEq] at h
                refine Or.inr (Or.inl ⟨P, c, node, hidx, hm, ?_⟩)
                rw [← h]
                simp only [decline, fuse, List.append_nil, List.append_assoc,
                  List.singleton_append]
                rfl
      · simp only [hu, if_false] at h
        by_cases ht : node.ExecutionProviderType = E.ProviderType
        · simp only [ht, if_true] at h
          refine Or.inr ⟨hd, [], by simp, by simp, ?_⟩
          by_cases hq : (g.node_unit_holder (g.node_unit_map idx)).UnitType =
              NodeUnitType.QDQGroup
          · simp only [hq, if_true] at h
            rw [request_qdq_group_ok_iff] at h
            obtain ⟨h1, h2, h3⟩ := h
            refine Or.inr (Or.inr ⟨true, (g.node_unit_holder (g.node_unit_map idx)).Index,
              [{ nodes := (g.node_unit_holder (g.node_unit_map idx)).members,
                 meta_def := some (E.FuseQDQGroup (g.node_unit_holder (g.node_unit_map idx))),
                 use_existing_schema := true }], ?_, ?_, ?_, by simp, Or.inr rfl, h3⟩)
            · simp [claimed_nodes]
            · simpa [claimed_nodes] using h1
            · simpa [claimed_nodes] using h2
          · simp only [hq, if_false] at h
            have h0 := (native_request_eq E node (g.node_unit_map idx)
              (g.node_unit_holder (g.node_unit_map idx)) s s1 []).1
              (by simpa using h)
            obtain ⟨h1, h2, h3⟩ := h0
            refine Or.inr (Or.inr ⟨true, idx,
            (requested_members (g.node_unit_holder (g.node_unit_map idx))).map
              (single_node_capability E), ?_, ?_, ?_,
            by simp [requested_members_ne_nil], Or.inl rfl, ?_⟩)
            · rw [claimed_nodes_map_single]
              exact requested_members_subset _
            · rw [claimed_nodes_map_single]
              exact h1
            · rw [claimed_nodes_map_single]
              exact h2
            · rw [h3, hidx]
        · simp only [ht, if_false, Outcome.ok.injEq] at h
          exact Or.inl h.symm

/-! ## What every state of a pass satisfies -/

theorem isSome_find_assign (p q : Nat) (b : Bool) (m : List (Nat × Bool)) :
    (map_find q (map_assign p b m)).isSome = true ↔ q = p ∨ (map_find q m).isSome = true := by
  rw [map_find_assign]
  by_cases h : p = q
  · subst h
    simp
  · have h2 : ¬ q = p := fun e => h e.symm
    simp [h, h2]

theorem isSome_find_insert {β : Type} (k q : Nat) (v : β) (m : List (Nat × β)) :
    (map_find q (map_insert k v m)).isSome = true ↔ q = k ∨ (map_find q m).isSome = true := by
  rw [map_find_insert]
  cases hq : map_find q m with
  | some w => simp
  | none =>
    by_cases h : k = q
    · subst h
      simp
    · have h2 : ¬ q = k := fun e => h e.symm
      simp [h, h2]

theorem claimed_nodes_modify_at_perm {M : Type} (E : Externals M) (P : NodeIndex) (node : Node)
    (c : Nat) (caps : List (IndexedSubGraph M)) (h : c < caps.length) :
    (claimed_nodes (modify_at (fused_capability E P node) c caps)).Perm
      (node.Index :: claimed_nodes caps) := by
  induction caps generalizing c with
  | nil => simp at h
  | cons a l ih =>
    cases c with
    | zero =>
      simp only [modify_at, claimed_nodes, List.map_cons, List.flatten_cons, fused_capability,
        List.append_assoc, List.singleton_append]
      exact List.perm_middle
    | succ c =>
      have hc : c < l.length := by simpa using h
      simp only [modify_at, claimed_nodes, List.map_cons, List.flatten_cons]
      exact ((ih c hc).append_left a.nodes).trans List.perm_middle

theorem calls_append_nodup (calls extra : List OracleCall) (hn : calls.Nodup)
    (he : extra.Nodup) (hd : ∀ c ∈ extra, c ∉ calls) : (calls ++ extra).Nodup := by
  refine List.Nodup.append hn he ?_
  intro c hc hce
  exact hd c hce hc

theorem visit_preserves_Sync {M : Type} (g : GraphViewer) (E : Externals M)
    (s s1 : PassState M) (idx : NodeIndex) (hs : Sync g s)
    (h : visit g E s idx = Outcome.ok s1) : Sync g s1 := by
  rcases visit_ok_cases g E s s1 idx h with rfl | ⟨hd, extra, hen, hex, hshape⟩
  · exact hs
  · have hfresh : ∀ c ∈ extra, c ∉ s.oracle_calls := by
      intro c hc hcs
      rcases hex c hc with rfl | rfl
      · exact hd (hs.calls_native _ hcs)
      · exact hd (hs.calls_fusion _ hcs)
    have hnodup : (s.oracle_calls ++ extra).Nodup :=
      calls_append_nodup _ _ hs.calls_nodup hen hfresh
    have hnat : ∀ b q, OracleCall.IsNodeSupported q ∈ s.oracle_calls ++ extra →
        (map_find q (map_assign (g.node_unit_map idx) b s.node_unit_supported_result)).isSome
          = true := by
      intro b q hq
      rw [isSome_find_assign]
      rcases List.mem_append.1 hq with hq | hq
      · exact Or.inr (hs.calls_native q hq)
      · rcases hex _ hq with e | e
        · injection e with e
          exact Or.inl e
        · cases e
    have hfus : ∀ b i, OracleCall.IsNodeSupportedWithFusion i ∈ s.oracle_calls ++ extra →
        (map_find (g.node_unit_map i)
          (map_assign (g.node_unit_map idx) b s.node_unit_supported_result)).isSome = true := by
      intro b i hi
      rw [isSome_find_assign]
      rcases List.mem_append.1 hi with hi | hi
      · exact Or.inr (hs.calls_fusion i hi)
      · rcases hex _ hi with e | e
        · cases e
        · injection e with e
          exact Or.inl (by rw [e])
    rcases hshape with ⟨b, rfl⟩ | ⟨P, c, node, hidx, hP, rfl⟩ |
      ⟨b, k, news, hmem, hnd, hfr, hne, hk, rfl⟩
    · exact
        { backmap_supported := hs.backmap_supported
          backmap_valid := hs.backmap_valid
          calls_native := hnat b
          calls_fusion := hfus b
          calls_nodup := hnodup
          seen_claimed := hs.seen_claimed }
    · have hc := hs.backmap_valid P c hP
      exact
        { backmap_supported := hs.backmap_supported
          backmap_valid := by
            intro k c0 hk
            simp only [fuse, modify_at_length]
            exact hs.backmap_valid k c0 hk
          calls_native := hnat false
          calls_fusion := hfus false
          calls_nodup := hnodup
          seen_claimed := by
            intro i hi
            simp only [fuse]
            rw [(claimed_nodes_modify_at_perm E P node c s.capabilities hc).mem_iff]
            exact List.mem_cons_of_mem _ (hs.seen_claimed i hi) }
    · exact
        { backmap_supported := by
            intro q
            simp only [grow, mem_set_insert, isSome_find_insert, hs.backmap_supported q]
          backmap_valid := by
            intro q c0 hq
            simp only [grow, map_find_insert, List.length_append] at hq ⊢
            have hpos : 0 < news.length := List.length_pos.2 hne
            cases hq0 : map_find q s.node_to_compute_capability with
            | some w =>
              rw [hq0] at hq
              simp only [Option.some.injEq] at hq
              subst hq
              have := hs.backmap_valid q w hq0
              omega
            | none =>
              rw [hq0] at hq
              by_cases hkq : k = q
              · simp only [hkq, if_true, Option.some.injEq] at hq
                omega
              · simp [hkq] at hq
          calls_native := hnat b
          calls_fusion := hfus b
          calls_nodup := hnodup
          seen_claimed := by
            intro i hi
            simp only [grow, claimed_nodes_append, List.mem_append] at hi ⊢
            rcases hi with hi | hi
            · exact Or.inl (hs.seen_claimed i hi)
            · exact Or.inr hi }

theorem Sync_init (g : GraphViewer) (M : Type) : Sync g (PassState.init M) := by
  constructor <;> intros <;> simp_all [PassState.init, map_find, claimed_nodes]

theorem Reachable.sync {M : Type} {g : GraphViewer} {E : Externals M} {s : PassState M}
    (h : Reachable g E s) : Sync g s := by
  induction h with
  | init => exact Sync_init g M
  | step _ _ hv ih => exact visit_preserves_Sync g E _ _ _ ih hv

theorem visit_preserves_Excl {M : Type} (g : GraphViewer) (E : Externals M)
    (hp : UnitsPartition g) (s s1 : PassState M) (idx : NodeIndex)
    (hidx : idx ∈ g.NodesInTopologicalOrder) (hs : Sync g s) (hx : Excl g s)
    (h : visit g E s idx = Outcome.ok s1) : Excl g s1 := by
  rcases visit_ok_cases g E s s1 idx h with rfl | ⟨hd, extra, _, _, hshape⟩
  · exact hx
  · have hmono : ∀ b q, decided s q →
        (map_find q (map_assign (g.node_unit_map idx) b s.node_unit_supported_result)).isSome
          = true := by
      intro b q hq
      rw [isSome_find_assign]
      exact Or.inr hq
    have hself : ∀ b,
        (map_find (g.node_unit_map idx)
          (map_assign (g.node_unit_map idx) b s.node_unit_supported_result)).isSome = true := by
      intro b
      rw [isSome_find_assign]
      exact Or.inl rfl
    rcases hshape with ⟨b, rfl⟩ | ⟨P, c, node, hnode, hP, rfl⟩ |
      ⟨b, k, news, hmem, hnd, _, _, hk, rfl⟩
    · exact
        { claimed_decided := fun i hi => hmono b _ (hx.claimed_decided i hi)
          claimed_nodup := hx.claimed_nodup
          backmap_decided := fun k hk => hmono b _ (hx.backmap_decided k hk) }
    · have hc := hs.backmap_valid P c hP
      have hperm := claimed_nodes_modify_at_perm E P node c s.capabilities hc
      have hnew : idx ∉ claimed_nodes s.capabilities := fun hi => hd (hx.claimed_decided idx hi)
      exact
        { claimed_decided := by
            intro i hi
            simp only [fuse] at hi
            rw [hperm.mem_iff, hnode] at hi
            rcases List.mem_cons.1 hi with rfl | hi
            · exact hself false
            · exact hmono false _ (hx.claimed_decided i hi)
          claimed_nodup := by
            simp only [fuse]
            rw [hperm.nodup_iff, hnode]
            exact List.nodup_cons.2 ⟨hnew, hx.claimed_nodup⟩
          backmap_decided := fun k hk => hmono false _ (hx.backmap_decided k hk) }
    · have hunit : ∀ m ∈ claimed_nodes news, g.node_unit_map m = g.node_unit_map idx :=
        fun m hm => hp idx hidx m (hmem m hm)
      exact
        { claimed_decided := by
            intro i hi
            simp only [grow, claimed_nodes_append, List.mem_append] at hi
            rcases hi with hi | hi
            · exact hmono b _ (hx.claimed_decided i hi)
            · show (map_find (g.node_unit_map i) _).isSome = true
              rw [hunit i hi]
              exact hself b
          claimed_nodup := by
            simp only [grow, claimed_nodes_append]
            refine List.Nodup.append hx.claimed_nodup hnd ?_
            intro m hm1 hm2
            have := hx.claimed_decided m hm1
            rw [hunit m hm2] at this
            exact hd this
          backmap_decided := by
            intro q hq
            simp only [grow, isSome_find_insert] at hq
            rcases hq with rfl | hq
            · rcases hk with rfl | rfl
              · exact hself b
              · show (map_find (g.node_unit_map _) _).isSome = true
                rw [hp idx hidx _ (by simp [NodeUnit.members])]
                exact hself b
            · exact hmono b _ (hx.backmap_decided q hq) }

theorem Excl_init (g : GraphViewer) (M : Type) : Excl g (PassState.init M) := by
  constructor <;> intros <;> simp_all [PassState.init, map_find, claimed_nodes]

theorem Reachable.excl {M : Type} {g : GraphViewer} {E : Externals M} {s : PassState M}
    (hp : UnitsPartition g) (h : Reachable g E s) : Excl g s := by
  induction h with
  | init => exact Excl_init g M
  | step hr hi hv ih => exact visit_preserves_Excl g E hp _ _ _ hi hr.sync ih hv

theorem run_loop_append {M : Type} (g : GraphViewer) (E : Externals M)
    (L1 L2 : List NodeIndex) (s : PassState M) :
    run_loop g E (L1 ++ L2) s = (run_loop g E L1 s).bind (run_loop g E L2) := by
  induction L1 generalizing s with
  | nil => rfl
  | cons i rest ih =>
    simp only [List.cons_append, run_loop]
    cases visit g E s i with
    | ok m => simp [Outcome.bind, ih]
    | fatal m => rfl

theorem run_loop_reachable {M : Type} (g : GraphViewer) (E : Externals M)
    (L : List NodeIndex) (s s1 : PassState M) (hL : ∀ i ∈ L, i ∈ g.NodesInTopologicalOrder)
    (hs : Reachable g E s) (h : run_loop g E L s = Outcome.ok s1) : Reachable g E s1 := by
  induction L generalizing s with
  | nil =>
    simp only [run_loop, Outcome.ok.injEq] at h
    exact h ▸ hs
  | cons i rest ih =>
    simp only [run_loop] at h
    cases hv : visit g E s i with
    | fatal m => simp [hv, Outcome.bind] at h
    | ok m =>
      simp only [hv, Outcome.bind] at h
      exact ih m (fun j hj => hL j (List.mem_cons_of_mem _ hj))
        (Reachable.step hs (hL i (List.mem_cons_self _ _)) hv) h

theorem run_pass_reachable {M : Type} (g : GraphViewer) (E : Externals M) (s : PassState M)
    (h : run_pass g E = Outcome.ok s) : Reachable g E s :=
  run_loop_reachable g E _ _ _ (fun _ hi => hi) Reachable.init h

theorem GetCapability_eq_some {M : Type} (g : GraphViewer) (E : Externals M)
    (caps : List (IndexedSubGraph M)) (h : GetCapability g E = some caps) :
    ∃ s, run_pass g E = Outcome.ok s ∧ s.capabilities = caps := by
  unfold GetCapability at h
  cases hr : run_pass g E with
  | fatal m => simp [hr] at h
  | ok m =>
    simp only [hr, Option.some.injEq] at h
    exact ⟨m, rfl, h⟩

/-! ## One iteration, branch by branch -/

theorem visit_decided {M : Type} (g : GraphViewer) (E : Externals M) (s : PassState M)
    (idx : NodeIndex) (hd : decided s (g.node_unit_map idx)) :
    visit g E s idx = Outcome.ok s := by
  unfold visit
  cases g.GetNode idx with
  | none => rfl
  | some node =>
    unfold decided at hd
    simp [hd]

theorem visit_native {M : Type} (g : GraphViewer) (E : Externals M) (s : PassState M)
    (idx : NodeIndex) (node : Node) (hg : g.GetNode idx = some node)
    (hu : node.ExecutionProviderType = "") (hd : ¬ decided s (g.node_unit_map idx))
    (hs : E.IsNodeSupported s.supported_nodes (g.node_unit_holder (g.node_unit_map idx)) = true) :
    visit g E s idx =
      record_and_request E node (g.node_unit_map idx) (g.node_unit_holder (g.node_unit_map idx))
        true { s with oracle_calls :=
          s.oracle_calls ++ [OracleCall.IsNodeSupported (g.node_unit_map idx)] } := by
  unfold decided at hd
  simp [visit, hg, hu, hd, hs]

theorem visit_fusion {M : Type} (g : GraphViewer) (E : Externals M) (s : PassState M)
    (idx : NodeIndex) (node : Node) (P : NodeIndex) (hg : g.GetNode idx = some node)
    (hu : node.ExecutionProviderType = "") (hd : ¬ decided s (g.node_unit_map idx))
    (hs : E.IsNodeSupported s.supported_nodes (g.node_unit_holder (g.node_unit_map idx)) = false)
    (hq : (g.node_unit_holder (g.node_unit_map idx)).UnitType ≠ NodeUnitType.QDQGroup)
    (hf : E.IsNodeSupportedWithFusion s.supported_nodes node = some P) :
    visit g E s idx =
      match map_find P s.node_to_compute_capability with
      | none => Outcome.fatal { s with oracle_calls := s.oracle_calls ++
          [OracleCall.IsNodeSupported (g.node_unit_map idx),
           OracleCall.IsNodeSupportedWithFusion idx] }
      | some c => Outcome.ok (fuse E s
          [OracleCall.IsNodeSupported (g.node_unit_map idx),
           OracleCall.IsNodeSupportedWithFusion idx] (g.node_unit_map idx) P node c) := by
  unfold decided at hd
  simp only [visit, hg, hd, hu, hs, Bool.false_eq_true, if_false, if_true, ne_eq, hq,
    not_false_eq_true, hf, fuse_into]
  cases map_find P s.node_to_compute_capability with
  | none => simp [Outcome.bind]
  | some c =>
    simp only [Outcome.bind, record_and_request_false, decline, fuse, List.append_nil,
      List.append_assoc, List.singleton_append]
    rfl

theorem visit_no_fusion {M : Type} (g : GraphViewer) (E : Externals M) (s : PassState M)
    (idx : NodeIndex) (node : Node) (hg : g.GetNode idx = some node)
    (hu : node.ExecutionProviderType = "") (hd : ¬ decided s (g.node_unit_map idx))
    (hs : E.IsNodeSupported s.supported_nodes (g.node_unit_holder (g.node_unit_map idx)) = false)
    (hq : (g.node_unit_holder (g.node_unit_map idx)).UnitType ≠ NodeUnitType.QDQGroup)
    (hf : E.IsNodeSupportedWithFusion s.supported_nodes node = none) :
    visit g E s idx =
      Outcome.ok (decline s
        [OracleCall.IsNodeSupported (g.node_unit_map idx),
         OracleCall.IsNodeSupportedWithFusion idx] (g.node_unit_map idx) false) := by
  unfold decided at hd
  simp [visit, hg, hd, hu, hs, hq, hf, record_and_request_false, decline]

theorem visit_unsupported_qdq {M : Type} (g : GraphViewer) (E : Externals M) (s : PassState M)
    (idx : NodeIndex) (node : Node) (hg : g.GetNode idx = some node)
    (hu : node.ExecutionProviderType = "") (hd : ¬ decided s (g.node_unit_map idx))
    (hs : E.IsNodeSupported s.supported_nodes (g.node_unit_holder (g.node_unit_map idx)) = false)
    (hq : (g.node_unit_holder (g.node_unit_map idx)).UnitType = NodeUnitType.QDQGroup) :
    visit g E s idx =
      Outcome.ok (decline s [OracleCall.IsNodeSupported (g.node_unit_map idx)]
        (g.node_unit_map idx) false) := by
  unfold decided at hd
  simp [visit, hg, hd, hu, hs, hq, record_and_request_false, decline]

theorem visit_own_qdq {M : Type} (g : GraphViewer) (E : Externals M) (s : PassState M)
    (idx : NodeIndex) (node : Node) (hg : g.GetNode idx = some node)
    (ht : node.ExecutionProviderType = E.ProviderType) (hne : E.ProviderType ≠ "")
    (hd : ¬ decided s (g.node_unit_map idx))
    (hq : (g.node_unit_holder (g.node_unit_map idx)).UnitType = NodeUnitType.QDQGroup) :
    visit g E s idx =
      request_qdq_group E (g.node_unit_map idx) (g.node_unit_holder (g.node_unit_map idx)) s := by
  unfold decided at hd
  simp [visit, hg, hd, ht, hne, hq]

/-! ## Exclusivity -/

/-- C1: for every graph whose node-to-unit mapping is a partition and every
support oracle, when `GetCapability` returns (no fatal abort), the node lists of
any two distinct returned capabilities are disjoint; moreover no capability lists
an index twice, so the concatenation of all node lists has no repetition. This
covers the indices appended by activation fusion. -/
theorem claims_exclusive {M : Type} (g : GraphViewer) (E : Externals M)
    (caps : List (IndexedSubGraph M)) (hp : UnitsPartition g)
    (h : GetCapability g E = some caps) :
    List.Pairwise (fun a b => List.Disjoint a.nodes b.nodes) caps ∧
    (∀ c ∈ caps, c.nodes.Nodup) ∧
    (claimed_nodes caps).Nodup := by
  obtain ⟨s, hrun, rfl⟩ := GetCapability_eq_some g E caps h
  have hx := (run_pass_reachable g E s hrun).excl hp
  have hn := hx.claimed_nodup
  have hf := List.nodup_flatten.1 hn
  refine ⟨?_, ?_, hn⟩
  · exact List.pairwise_map.1 hf.2
  · intro c hc
    exact hf.1 c.nodes (List.mem_map.2 ⟨c, hc, rfl⟩)

theorem pool_relu_partition : UnitsPartition pool_relu_graph := by
  simp [UnitsPartition, pool_relu_graph, NodeUnit.members]

/-- C1 on the pool-and-Relu graph, whose single capability holds both nodes. -/
theorem claims_exclusive_witness :
    UnitsPartition pool_relu_graph ∧
    GetCapability pool_relu_graph example_externals =
      some [{ nodes := [0, 1], meta_def := some (0, 1), use_existing_schema := true }] ∧
    (claimed_nodes [(IndexedSubGraph.mk [0, 1] (some ((0 : Nat), (1 : Nat))) true)]).Nodup :=
  ⟨pool_relu_partition, by decide,
   (claims_exclusive pool_relu_graph example_externals _ pool_relu_partition
      (by decide)).2.2⟩

/-! ## Activation fusion -/

theorem plain_requested_members (g : GraphViewer) (idx : NodeIndex)
    (hI : (g.node_unit_holder (g.node_unit_map idx)).InputNodes = [])
    (hX : (g.node_unit_holder (g.node_unit_map idx)).Index = idx)
    (hO : (g.node_unit_holder (g.node_unit_map idx)).OutputNodes = [] ∨
      (g.node_unit_holder (g.node_unit_map idx)).OutputNodes = [idx]) :
    requested_members (g.node_unit_holder (g.node_unit_map idx)) = [idx] := by
  unfold requested_members
  rcases hO with hO | hO <;> simp [hI, hX, hO]

theorem GetNode_of_provider (g : GraphViewer) (idx : NodeIndex) (ep : String)
    (h : g.provider idx = some ep) :
    g.GetNode idx = some { Index := idx, ExecutionProviderType := ep } := by
  simp [GraphViewer.GetNode, h]

theorem pool_relu_pass {M : Type} (g : GraphViewer) (E : Externals M) (pool relu : NodeIndex)
    (htopo : g.NodesInTopologicalOrder = [pool, relu]) (hne : pool ≠ relu)
    (hplain : PlainUnassignedGraph g)
    (hs1 : E.IsNodeSupported [] (g.node_unit_holder (g.node_unit_map pool)) = true)
    (hs2 : E.IsNodeSupported [pool] (g.node_unit_holder (g.node_unit_map relu)) = false)
    (hf : E.IsNodeSupportedWithFusion [pool]
      { Index := relu, ExecutionProviderType := "" } = some pool) :
    GetCapability g E =
      some [{ nodes := [pool, relu],
              meta_def := some (E.FuseActivation pool
                { Index := relu, ExecutionProviderType := "" }),
              use_existing_schema := true }] := by
  obtain ⟨hp1, _, hx1, hi1, ho1⟩ := hplain pool (by simp [htopo])
  obtain ⟨hp2, hu2, hx2, _, _⟩ := hplain relu (by simp [htopo])
  have hmap : g.node_unit_map pool ≠ g.node_unit_map relu := by
    intro e
    rw [e, hx2] at hx1
    exact hne hx1.symm
  have hd1 : ¬ decided (PassState.init M) (g.node_unit_map pool) := by
    simp [decided, PassState.init, map_find]
  have hv1 := visit_native g E (PassState.init M) pool _ (GetNode_of_provider g pool "" hp1)
    rfl hd1 hs1
  have hreq := (native_request_eq E { Index := pool, ExecutionProviderType := "" }
    (g.node_unit_map pool) (g.node_unit_holder (g.node_unit_map pool)) (PassState.init M)
    (grow (PassState.init M) [OracleCall.IsNodeSupported (g.node_unit_map pool)]
      (g.node_unit_map pool) true pool
      ((requested_members (g.node_unit_holder (g.node_unit_map pool))).map
        (single_node_capability E)))
    [OracleCall.IsNodeSupported (g.node_unit_map pool)]).2
    (by
      rw [plain_requested_members g pool hi1 hx1 ho1]
      simp [PassState.init])
  have hreq2 : visit g E (PassState.init M) pool = Outcome.ok
      (grow (PassState.init M) [OracleCall.IsNodeSupported (g.node_unit_map pool)]
        (g.node_unit_map pool) true pool [single_node_capability E pool]) := by
    rw [hv1]
    rw [plain_requested_members g pool hi1 hx1 ho1] at hreq
    simpa [PassState.init] using hreq
  have hd2 : ¬ decided (grow (PassState.init M)
      [OracleCall.IsNodeSupported (g.node_unit_map pool)]
      (g.node_unit_map pool) true pool [single_node_capability E pool])
      (g.node_unit_map relu) := by
    simp [decided, grow, PassState.init, map_assign, map_find, hmap]
  have hv2 := visit_fusion g E _ relu _ pool (GetNode_of_provider g relu "" hp2) rfl hd2
    (by simpa [grow, PassState.init, set_insert] using hs2)
    (by rw [hu2]; decide)
    (by simpa [grow, PassState.init, set_insert] using hf)
  simp only [GetCapability, run_pass, htopo, run_loop, hreq2, Outcome.bind, hv2]
  simp [grow, PassState.init, map_insert, map_find, fuse, modify_at, fused_capability,
    single_node_capability]

/-- C3: when an unassigned node of an undecided, not natively supported,
non-QDQ unit is visited and `IsNodeSupportedWithFusion` returns a producer that has
a back-map entry for capability `c`, the iteration succeeds, the number of
capabilities is unchanged, capability `c` gets the node's index appended at the
end of its node list, the descriptor `FuseActivation(producer, node)` and
`use_existing_schema = true`, and every other capability is unchanged. As a
consequence a pass over a supported pool node followed by a Relu fusable onto it
returns the single capability with node list [pool, Relu]. -/
theorem fusion_extends_claim {M : Type} (g : GraphViewer) (E : Externals M)
    (s : PassState M) (idx : NodeIndex) (node : Node) (P : NodeIndex) (c : Nat)
    (hg : g.GetNode idx = some node)
    (hu : node.ExecutionProviderType = "") (hd : ¬ decided s (g.node_unit_map idx))
    (hs : E.IsNodeSupported s.supported_nodes (g.node_unit_holder (g.node_unit_map idx)) = false)
    (hq : (g.node_unit_holder (g.node_unit_map idx)).UnitType ≠ NodeUnitType.QDQGroup)
    (hf : E.IsNodeSupportedWithFusion s.supported_nodes node = some P)
    (hc : map_find P s.node_to_compute_capability = some c) :
    (∃ s1, visit g E s idx = Outcome.ok s1 ∧
      s1.capabilities.length = s.capabilities.length ∧
      (∀ cap, s.capabilities[c]? = some cap →
        s1.capabilities[c]? = some
          { nodes := cap.nodes ++ [idx],
            meta_def := some (E.FuseActivation P node),
            use_existing_schema := true }) ∧
      (∀ j, j ≠ c → s1.capabilities[j]? = s.capabilities[j]?)) ∧
    (∀ (g2 : GraphViewer) (E2 : Externals M) (pool relu : NodeIndex),
      g2.NodesInTopologicalOrder = [pool, relu] → pool ≠ relu → PlainUnassignedGraph g2 →
      E2.IsNodeSupported [] (g2.node_unit_holder (g2.node_unit_map pool)) = true →
      E2.IsNodeSupported [pool] (g2.node_unit_holder (g2.node_unit_map relu)) = false →
      E2.IsNodeSupportedWithFusion [pool]
        { Index := relu, ExecutionProviderType := "" } = some pool →
      GetCapability g2 E2 =
        some [{ nodes := [pool, relu],
                meta_def := some (E2.FuseActivation pool
                  { Index := relu, ExecutionProviderType := "" }),
                use_existing_schema := true }]) := by
  refine ⟨?_, fun g2 E2 pool relu h1 h2 h3 h4 h5 h6 => pool_relu_pass g2 E2 pool relu h1 h2 h3 h4 h5 h6⟩
  have hv := visit_fusion g E s idx node P hg hu hd hs hq hf
  rw [hc] at hv
  have hidx := (GetNode_eq_some g idx node hg).1
  refine ⟨_, hv, ?_, ?_, ?_⟩
  · simp [fuse, modify_at_length]
  · intro cap hcap
    simp [fuse, modify_at_getElem?, hcap, fused_capability, hidx]
  · intro j hj
    simp [fuse, modify_at_getElem?, hj]

/-- The state of the pool-and-Relu pass after the pool node was visited. -/
theorem fusion_extends_claim_witness :
    visit pool_relu_graph example_externals
      { capabilities := [{ nodes := [0], meta_def := none, use_existing_schema := false }],
        supported_nodes := [0], node_to_compute_capability := [(0, 0)],
        node_unit_supported_result := [(0, true)], nodeIndex_map := [0],
        oracle_calls := [OracleCall.IsNodeSupported 0] } 1 =
      Outcome.ok
        { capabilities := [{ nodes := [0, 1], meta_def := some (0, 1),
                             use_existing_schema := true }],
          supported_nodes := [0], node_to_compute_capability := [(0, 0)],
          node_unit_supported_result := [(0, true), (1, false)], nodeIndex_map := [0],
          oracle_calls := [OracleCall.IsNodeSupported 0, OracleCall.IsNodeSupported 1,
            OracleCall.IsNodeSupportedWithFusion 1] } ∧
    GetCapability pool_relu_graph example_externals =
      some [{ nodes := [0, 1], meta_def := some (0, 1), use_existing_schema := true }] :=
  ⟨by decide,
   (fusion_extends_claim pool_relu_graph example_externals
      { capabilities := [{ nodes := [0], meta_def := none, use_existing_schema := false }],
        supported_nodes := [0], node_to_compute_capability := [(0, 0)],
        node_unit_supported_result := [(0, true)], nodeIndex_map := [0],
        oracle_calls := [OracleCall.IsNodeSupported 0] }
      1 { Index := 1, ExecutionProviderType := "" } 0 0
      (by decide) (by decide) (by decide) (by decide) (by decide) (by decide)
      (by decide)).2 pool_relu_graph example_externals 0 1 (by decide) (by decide)
      (by simp [PlainUnassignedGraph, pool_relu_graph]) (by decide) (by decide) (by decide)⟩

/-! ## The fusion target must already be claimed -/

/-- C4: when an unassigned node of an undecided, not natively supported,
non-QDQ unit is visited and `IsNodeSupportedWithFusion` returns a producer, the
iteration is fatal exactly when the producer has no back-map entry. In that case
the state at the abort has the capabilities, back-map, memo, supported nodes and
seen set of the state before the iteration, the loop from there on is fatal
whatever nodes follow, and a pass that reaches this point returns no
capabilities. -/
theorem fusion_target_must_be_claimed {M : Type} (g : GraphViewer) (E : Externals M)
    (s : PassState M) (idx : NodeIndex) (node : Node) (P : NodeIndex)
    (hg : g.GetNode idx = some node)
    (hu : node.ExecutionProviderType = "") (hd : ¬ decided s (g.node_unit_map idx))
    (hs : E.IsNodeSupported s.supported_nodes (g.node_unit_holder (g.node_unit_map idx)) = false)
    (hq : (g.node_unit_holder (g.node_unit_map idx)).UnitType ≠ NodeUnitType.QDQGroup)
    (hf : E.IsNodeSupportedWithFusion s.supported_nodes node = some P) :
    ((visit g E s idx).isOk = false ↔ map_find P s.node_to_compute_capability = none) ∧
    (map_find P s.node_to_compute_capability = none →
      (∃ sf, visit g E s idx = Outcome.fatal sf ∧
        sf.capabilities = s.capabilities ∧
        sf.node_to_compute_capability = s.node_to_compute_capability ∧
        sf.node_unit_supported_result = s.node_unit_supported_result ∧
        sf.supported_nodes = s.supported_nodes ∧
        sf.nodeIndex_map = s.nodeIndex_map) ∧
      (∀ rest, (run_loop g E (idx :: rest) s).isOk = false) ∧
      (∀ before rest, g.NodesInTopologicalOrder = before ++ idx :: rest →
        run_loop g E before (PassState.init M) = Outcome.ok s →
        GetCapability g E = none)) := by
  have hv := visit_fusion g E s idx node P hg hu hd hs hq hf
  constructor
  · cases hc : map_find P s.node_to_compute_capability with
    | none =>
      rw [hc] at hv
      simp [hv, Outcome.isOk]
    | some c =>
      rw [hc] at hv
      simp [hv, Outcome.isOk]
  · intro hc
    rw [hc] at hv
    refine ⟨⟨_, hv, rfl, rfl, rfl, rfl, rfl⟩, ?_, ?_⟩
    · intro rest
      simp [run_loop, hv, Outcome.bind, Outcome.isOk]
    · intro before rest htopo hrun
      simp [GetCapability, run_pass, htopo, run_loop_append, hrun, Outcome.bind, run_loop, hv]

/-- C4 on a crafted oracle that names the unclaimed node 0 as fusion target of
node 1: the pass returns nothing. -/
theorem fusion_target_must_be_claimed_witness :
    map_find 0 (PassState.init (NodeIndex × NodeIndex)).node_to_compute_capability = none ∧
    GetCapability orphan_relu_graph crafted_externals = none :=
  ⟨by decide,
   ((fusion_target_must_be_claimed orphan_relu_graph crafted_externals
      (PassState.init (NodeIndex × NodeIndex)) 1
      { Index := 1, ExecutionProviderType := "" } 0
      (by decide) (by decide) (by decide) (by decide) (by decide) (by decide)).2
      (by decide)).2.2 [] [] (by decide) (by decide)⟩

/-! ## Quantize/dequantize group claims -/

/-- C6: when a node tagged with this provider is visited, its unit is an
undecided quantize/dequantize group and no insertion aborts, exactly one
capability is appended, whose node list is the unit's input nodes in order, then
the core node, then the unit's output nodes in order, with no index twice; it
carries the descriptor `FuseQDQGroup(unit)` and `use_existing_schema = true`; the
unit is recorded as requested; and, in a pass over a graph whose units form a
partition, the back-map entry of the core node points at the new capability. -/
theorem qdq_group_claim {M : Type} (g : GraphViewer) (E : Externals M)
    (s s1 : PassState M) (idx : NodeIndex) (node : Node)
    (hg : g.GetNode idx = some node)
    (ht : node.ExecutionProviderType = E.ProviderType) (hne : E.ProviderType ≠ "")
    (hd : ¬ decided s (g.node_unit_map idx))
    (hq : (g.node_unit_holder (g.node_unit_map idx)).UnitType = NodeUnitType.QDQGroup)
    (hv : visit g E s idx = Outcome.ok s1) :
    s1.capabilities = s.capabilities ++
      [{ nodes := (g.node_unit_holder (g.node_unit_map idx)).InputNodes ++
           [(g.node_unit_holder (g.node_unit_map idx)).Index] ++
           (g.node_unit_holder (g.node_unit_map idx)).OutputNodes,
         meta_def := some (E.FuseQDQGroup (g.node_unit_holder (g.node_unit_map idx))),
         use_existing_schema := true }] ∧
    ((g.node_unit_holder (g.node_unit_map idx)).InputNodes ++
       [(g.node_unit_holder (g.node_unit_map idx)).Index] ++
       (g.node_unit_holder (g.node_unit_map idx)).OutputNodes).Nodup ∧
    map_find (g.node_unit_map idx) s1.node_unit_supported_result = some true ∧
    (map_find (g.node_unit_holder (g.node_unit_map idx)).Index
      s1.node_to_compute_capability).isSome = true ∧
    (UnitsPartition g → Reachable g E s → idx ∈ g.NodesInTopologicalOrder →
      map_find (g.node_unit_holder (g.node_unit_map idx)).Index
        s1.node_to_compute_capability = some s.capabilities.length) := by
  rw [visit_own_qdq g E s idx node hg ht hne hd hq, request_qdq_group_ok_iff] at hv
  obtain ⟨h1, _, rfl⟩ := hv
  refine ⟨rfl, h1, ?_, ?_, ?_⟩
  · simp [grow, map_find_assign]
  · simp [grow, isSome_find_insert]
  · intro hp hr hidx
    have hx := hr.excl hp
    have hcore : g.node_unit_map (g.node_unit_holder (g.node_unit_map idx)).Index =
        g.node_unit_map idx := hp idx hidx _ (by simp [NodeUnit.members])
    have hnone : map_find (g.node_unit_holder (g.node_unit_map idx)).Index
        s.node_to_compute_capability = none := by
      cases hm : map_find (g.node_unit_holder (g.node_unit_map idx)).Index
          s.node_to_compute_capability with
      | none => rfl
      | some c =>
        have := hx.backmap_decided (g.node_unit_holder (g.node_unit_map idx)).Index
          (by rw [hm]; rfl)
        rw [hcore] at this
        exact absurd this hd
    simp [grow, map_find_insert, hnone]

theorem qdq_graph_partition : UnitsPartition qdq_graph := by
  simp [UnitsPartition, qdq_graph, NodeUnit.members]

/-- C6 on a group made of dequantize node 0, core node 1 and quantize node 2,
visited through node 0 at the start of a pass. -/
theorem qdq_group_claim_witness :
    visit qdq_graph example_externals (PassState.init (NodeIndex × NodeIndex)) 0 =
      Outcome.ok
        { capabilities := [{ nodes := [0, 1, 2], meta_def := some (1, 1),
                             use_existing_schema := true }],
          supported_nodes := [1], node_to_compute_capability := [(1, 0)],
          node_unit_supported_result := [(0, true)], nodeIndex_map := [0, 1, 2],
          oracle_calls := [] } ∧
    map_find 1 [((1 : Nat), (0 : Nat))] = some 0 :=
  ⟨by decide,
   (qdq_group_claim qdq_graph example_externals (PassState.init (NodeIndex × NodeIndex))
      { capabilities := [{ nodes := [0, 1, 2], meta_def := some (1, 1),
                           use_existing_schema := true }],
        supported_nodes := [1], node_to_compute_capability := [(1, 0)],
        node_unit_supported_result := [(0, true)], nodeIndex_map := [0, 1, 2],
        oracle_calls := [] }
      0 { Index := 0, ExecutionProviderType := "XnnpackExecutionProvider" }
      (by decide) (by decide) (by decide) (by decide) (by decide) (by decide)).2.2.2.2
      qdq_graph_partition Reachable.init (by decide)⟩

/-! ## Decide once -/

theorem visit_keeps_decision {M : Type} (g : GraphViewer) (E : Externals M)
    (s s1 : PassState M) (idx : NodeIndex) (p : Nat) (b : Bool)
    (hm : map_find p s.node_unit_supported_result = some b)
    (hv : visit g E s idx = Outcome.ok s1) :
    map_find p s1.node_unit_supported_result = some b := by
  rcases visit_ok_cases g E s s1 idx hv with rfl | ⟨hd, extra, _, _, hshape⟩
  · exact hm
  · have hne : ¬ g.node_unit_map idx = p := by
      intro e
      apply hd
      unfold decided
      rw [e, hm]
      rfl
    rcases hshape with ⟨b0, rfl⟩ | ⟨P, c, node, _, _, rfl⟩ | ⟨b0, k, news, _, _, _, _, _, rfl⟩
    · simp [decline, map_find_assign, hne, hm]
    · simp [fuse, map_find_assign, hne, hm]
    · simp [grow, map_find_assign, hne, hm]

theorem run_loop_keeps_decision {M : Type} (g : GraphViewer) (E : Externals M)
    (L : List NodeIndex) (s s1 : PassState M) (p : Nat) (b : Bool)
    (hm : map_find p s.node_unit_supported_result = some b)
    (hv : run_loop g E L s = Outcome.ok s1) :
    map_find p s1.node_unit_supported_result = some b := by
  induction L generalizing s with
  | nil =>
    simp only [run_loop, Outcome.ok.injEq] at hv
    exact hv ▸ hm
  | cons i rest ih =>
    simp only [run_loop] at hv
    cases hvis : visit g E s i with
    | fatal m => simp [hvis, Outcome.bind] at hv
    | ok m =>
      simp only [hvis, Outcome.bind] at hv
      exact ih m (visit_keeps_decision g E s m i p b hm hvis) hv

/-- C8: once a unit has a decision in the memo, (1) visiting any node that
maps to it returns the state unchanged, whatever the oracle is, so the oracle is
not consulted; (2) one more iteration on any node, and (3) any further stretch of
the loop, keep the recorded value; and (4) in every state of a pass the trace of
oracle calls holds the native-support query of each unit at most once. -/
theorem decide_once {M : Type} (g : GraphViewer) (E : Externals M) (s : PassState M) :
    (∀ idx, decided s (g.node_unit_map idx) →
      ∀ E2 : Externals M, visit g E2 s idx = Outcome.ok s) ∧
    (∀ idx s1 p b, map_find p s.node_unit_supported_result = some b →
      visit g E s idx = Outcome.ok s1 →
      map_find p s1.node_unit_supported_result = some b) ∧
    (∀ L s1 p b, map_find p s.node_unit_supported_result = some b →
      run_loop g E L s = Outcome.ok s1 →
      map_find p s1.node_unit_supported_result = some b) ∧
    (Reachable g E s → ∀ p, s.oracle_calls.count (OracleCall.IsNodeSupported p) ≤ 1) := by
  refine ⟨?_, ?_, ?_, ?_⟩
  · intro idx hd E2
    exact visit_decided g E2 s idx hd
  · intro idx s1 p b hm hv
    exact visit_keeps_decision g E s s1 idx p b hm hv
  · intro L s1 p b hm hv
    exact run_loop_keeps_decision g E L s s1 p b hm hv
  · intro hr p
    exact List.nodup_iff_count_le_one.1 hr.sync.calls_nodup _

/-- C8 on the quantize/dequantize group: after node 0 decided the unit,
visiting node 1 of the same unit changes nothing, also under the crafted oracle. -/
theorem decide_once_witness :
    visit qdq_graph crafted_externals
      { capabilities := [{ nodes := [0, 1, 2], meta_def := some (1, 1),
                           use_existing_schema := true }],
        supported_nodes := [1], node_to_compute_capability := [(1, 0)],
        node_unit_supported_result := [(0, true)], nodeIndex_map := [0, 1, 2],
        oracle_calls := [] } 1 =
      Outcome.ok
        { capabilities := [{ nodes := [0, 1, 2], meta_def := some (1, 1),
                             use_existing_schema := true }],
          supported_nodes := [1], node_to_compute_capability := [(1, 0)],
          node_unit_supported_result := [(0, true)], nodeIndex_map := [0, 1, 2],
          oracle_calls := [] } :=
  (decide_once qdq_graph example_externals
    { capabilities := [{ nodes := [0, 1, 2], meta_def := some (1, 1),
                         use_existing_schema := true }],
      supported_nodes := [1], node_to_compute_capability := [(1, 0)],
      node_unit_supported_result := [(0, true)], nodeIndex_map := [0, 1, 2],
      oracle_calls := [] }).1 1 (by decide) crafted_externals

/-! ## Graphs of plain unassigned nodes -/

theorem plain_loop {M : Type} (g : GraphViewer) (E : Externals M) (sup : NodeIndex → Bool)
    (hplain : PlainUnassignedGraph g)
    (hsup : ∀ sn, ∀ idx ∈ g.NodesInTopologicalOrder,
      E.IsNodeSupported sn (g.node_unit_holder (g.node_unit_map idx)) = sup idx)
    (hfus : ∀ sn node, E.IsNodeSupportedWithFusion sn node = none)
    (L : List NodeIndex) (s : PassState M)
    (hL : ∀ idx ∈ L, idx ∈ g.NodesInTopologicalOrder) (hnd : L.Nodup)
    (hund : ∀ idx ∈ L, ¬ decided s (g.node_unit_map idx))
    (hfresh : ∀ idx ∈ L, idx ∉ s.nodeIndex_map) :
    ∃ s1, run_loop g E L s = Outcome.ok s1 ∧
      s1.capabilities = s.capabilities ++ (L.filter sup).map (single_node_capability E) := by
  induction L generalizing s with
  | nil => exact ⟨s, rfl, by simp⟩
  | cons i rest ih =>
    have hi := hL i (List.mem_cons_self _ _)
    obtain ⟨hp, hty, hx, hin, hout⟩ := hplain i hi
    have hg := GetNode_of_provider g i "" hp
    have hdi := hund i (List.mem_cons_self _ _)
    have hnd2 := List.nodup_cons.1 hnd
    have hrestL : ∀ idx ∈ rest, idx ∈ g.NodesInTopologicalOrder :=
      fun j hj => hL j (List.mem_cons_of_mem _ hj)
    have hmapne : ∀ j ∈ rest, ¬ g.node_unit_map j = g.node_unit_map i := by
      intro j hj e
      have hxj := (hplain j (hrestL j hj)).2.2.1
      rw [e, hx] at hxj
      exact hnd2.1 (hxj ▸ hj)
    have hund2 : ∀ (b : Bool) (j : NodeIndex), j ∈ rest →
        ¬ (map_find (g.node_unit_map j)
          (map_assign (g.node_unit_map i) b s.node_unit_supported_result)).isSome = true := by
      intro b j hj hdec
      rcases (isSome_find_assign _ _ _ _).1 hdec with e | e
      · exact hmapne j hj e
      · exact hund j (List.mem_cons_of_mem _ hj) e
    cases hsi : sup i with
    | true =>
      have hs := (hsup s.supported_nodes i hi).trans hsi
      have hv := visit_native g E s i _ hg rfl hdi hs
      have hreq := (native_request_eq E { Index := i, ExecutionProviderType := "" }
        (g.node_unit_map i) (g.node_unit_holder (g.node_unit_map i)) s
        (grow s [OracleCall.IsNodeSupported (g.node_unit_map i)] (g.node_unit_map i) true i
          ((requested_members (g.node_unit_holder (g.node_unit_map i))).map
            (single_node_capability E)))
        [OracleCall.IsNodeSupported (g.node_unit_map i)]).2
        (by
          rw [plain_requested_members g i hin hx hout]
          exact ⟨by simp, by simpa using hfresh i (List.mem_cons_self _ _), rfl⟩)
      rw [plain_requested_members g i hin hx hout] at hreq
      rw [← hv] at hreq
      obtain ⟨s1, hrun, hcaps⟩ := ih
        (grow s [OracleCall.IsNodeSupported (g.node_unit_map i)] (g.node_unit_map i) true i
          [single_node_capability E i]) hrestL hnd2.2
        (fun j hj => hund2 true j hj)
        (by
          intro j hj hmem
          simp only [grow, claimed_nodes, single_node_capability, List.map_cons, List.map_nil,
            List.flatten_cons, List.flatten_nil, List.append_nil, List.mem_append,
            List.mem_singleton] at hmem
          rcases hmem with hmem | hmem
          · exact hfresh j (List.mem_cons_of_mem _ hj) hmem
          · exact hnd2.1 (hmem ▸ hj))
      refine ⟨s1, ?_, ?_⟩
      · simp only [run_loop, hreq, Outcome.bind, List.map_cons, List.map_nil]
        simpa using hrun
      · rw [hcaps]
        simp [grow, List.filter_cons, hsi]
    | false =>
      have hs := (hsup s.supported_nodes i hi).trans hsi
      have hv := visit_no_fusion g E s i _ hg rfl hdi hs (by rw [hty]; decide) (hfus _ _)
      obtain ⟨s1, hrun, hcaps⟩ := ih
        (decline s [OracleCall.IsNodeSupported (g.node_unit_map i),
          OracleCall.IsNodeSupportedWithFusion i] (g.node_unit_map i) false) hrestL hnd2.2
        (fun j hj => hund2 false j hj)
        (fun j hj => hfresh j (List.mem_cons_of_mem _ hj))
      refine ⟨s1, ?_, ?_⟩
      · simp only [run_loop, hv, Outcome.bind]
        exact hrun
      · rw [hcaps]
        simp [decline, List.filter_cons, hsi]

/-- C2: in a graph whose nodes are all unassigned and each its own plain
single-node unit (no input nodes, output nodes empty or the node itself), listed
once each in the topological order, with an oracle whose native-support answer
for the unit of node `idx` is `sup idx` and which reports no node fusable, the
pass does not abort and returns, in visiting order, exactly one capability per
supported node, with node list `[idx]`, no descriptor and the initial schema flag,
and nothing else. -/
theorem plain_graph_claims {M : Type} (g : GraphViewer) (E : Externals M)
    (sup : NodeIndex → Bool) (hplain : PlainUnassignedGraph g)
    (hnodup : g.NodesInTopologicalOrder.Nodup)
    (hsup : ∀ sn, ∀ idx ∈ g.NodesInTopologicalOrder,
      E.IsNodeSupported sn (g.node_unit_holder (g.node_unit_map idx)) = sup idx)
    (hfus : ∀ sn node, E.IsNodeSupportedWithFusion sn node = none) :
    GetCapability g E =
      some ((g.NodesInTopologicalOrder.filter sup).map
        (fun idx => { nodes := [idx], meta_def := none,
                      use_existing_schema := E.default_use_existing_schema })) := by
  obtain ⟨s1, hrun, hcaps⟩ := plain_loop g E sup hplain hsup hfus g.NodesInTopologicalOrder
    (PassState.init M) (fun _ h => h) hnodup
    (by intro idx _; simp [decided, PassState.init, map_find])
    (by intro idx _; simp [PassState.init])
  simp only [GetCapability, run_pass, hrun, hcaps]
  simp [PassState.init, single_node_capability]

theorem pool_relu_plain : PlainUnassignedGraph pool_relu_graph := by
  simp [PlainUnassignedGraph, pool_relu_graph]

/-- C2 on the two-node graph: with node 0 the only supported node the pass
returns the one capability [0]; with no node supported it returns none. -/
theorem plain_graph_claims_witness :
    GetCapability pool_relu_graph no_fusion_externals =
      some [{ nodes := [0], meta_def := none, use_existing_schema := false }] ∧
    GetCapability pool_relu_graph (average_pool_externals example_padding_check one_by_one_pool) =
      some [] :=
  ⟨plain_graph_claims pool_relu_graph no_fusion_externals (fun i => decide (i = 0))
      pool_relu_plain (by decide)
      (by simp [pool_relu_graph, no_fusion_externals, example_externals])
      (by simp [no_fusion_externals]),
   by decide⟩

/-! ## The 1x1 average pool -/

/-- C7: for an average-pool unit whose constructed attributes have kernel
shape [1, 1] and which has its input, `IsAveragePoolOnnxNodeSupported` returns
false whatever the input shape, rounding mode, padding and quantization are; and
a pass over a graph made of one unassigned node, with that answer as the
native-support oracle and no fusion target, returns no capability. -/
theorem one_by_one_pool_unsupported {M : Type} (IsPaddingTypeSupported : AutoPadType → Bool)
    (nodeunit : AveragePoolUnit) (pool_attrs : PoolAttributes)
    (hattrs : nodeunit.pool_attrs = some pool_attrs)
    (hkernel : pool_attrs.kernel_shape = [1, 1])
    (hinputs : nodeunit.Inputs ≠ []) :
    IsAveragePoolOnnxNodeSupported IsPaddingTypeSupported nodeunit = some false ∧
    (∀ (g : GraphViewer) (E : Externals M) (idx : NodeIndex),
      g.NodesInTopologicalOrder = [idx] → g.provider idx = some "" →
      (∀ sn, E.IsNodeSupported sn (g.node_unit_holder (g.node_unit_map idx)) =
        (IsAveragePoolOnnxNodeSupported IsPaddingTypeSupported nodeunit == some true)) →
      (∀ sn node, E.IsNodeSupportedWithFusion sn node = none) →
      GetCapability g E = some []) := by
  have h1 : IsAveragePoolOnnxNodeSupported IsPaddingTypeSupported nodeunit = some false := by
    unfold IsAveragePoolOnnxNodeSupported
    split
    · rfl
    · cases hI : nodeunit.Inputs with
      | nil => exact absurd hI hinputs
      | cons x_arg rest =>
        simp only
        cases x_arg.Shape with
        | none => rfl
        | some x_shape =>
          simp only [hattrs, hkernel]
          split
          · rfl
          · split
            · rfl
            · split
              · rfl
              · split
                · rfl
                · simp
  refine ⟨h1, ?_⟩
  intro g E idx htopo hp hsup hfus
  have hg := GetNode_of_provider g idx "" hp
  have hd : ¬ decided (PassState.init M) (g.node_unit_map idx) := by
    simp [decided, PassState.init, map_find]
  have hs : E.IsNodeSupported (PassState.init M).supported_nodes
      (g.node_unit_holder (g.node_unit_map idx)) = false := by
    rw [hsup, h1]
    rfl
  by_cases hq : (g.node_unit_holder (g.node_unit_map idx)).UnitType = NodeUnitType.QDQGroup
  · have hv := visit_unsupported_qdq g E _ idx _ hg rfl hd hs hq
    simp only [GetCapability, run_pass, htopo, run_loop, hv, Outcome.bind]
    rfl
  · have hv := visit_no_fusion g E _ idx _ hg rfl hd hs hq (hfus _ _)
    simp only [GetCapability, run_pass, htopo, run_loop, hv, Outcome.bind]
    rfl

/-- C7 on a float pool with input shape [?, 8, 8, 3] and kernel [1, 1], alone
in a graph. -/
theorem one_by_one_pool_unsupported_witness :
    IsAveragePoolOnnxNodeSupported example_padding_check one_by_one_pool = some false ∧
    GetCapability orphan_relu_graph
      (average_pool_externals example_padding_check one_by_one_pool) = some [] :=
  ⟨(one_by_one_pool_unsupported (M := NodeIndex × NodeIndex) example_padding_check
      one_by_one_pool _ rfl rfl (by decide)).1,
   (one_by_one_pool_unsupported example_padding_check one_by_one_pool _ rfl rfl
      (by decide)).2 orphan_relu_graph
      (average_pool_externals example_padding_check one_by_one_pool) 1
      (by decide) (by decide) (by intro sn; rfl) (by intro sn node; rfl)⟩

/-! ## The back-map -/

/-- C10 as stated fails: at the end of the pool-and-Relu pass the fused node 1
is in the capability but has no back-map entry, and at the end of the pass over
the quantize/dequantize group the members 0 and 2 are in the capability but have
no back-map entry. -/
theorem backmap_entry_counterexample :
    (run_pass pool_relu_graph example_externals =
      Outcome.ok
        { capabilities := [{ nodes := [0, 1], meta_def := some (0, 1),
                             use_existing_schema := true }],
          supported_nodes := [0], node_to_compute_capability := [(0, 0)],
          node_unit_supported_result := [(0, true), (1, false)], nodeIndex_map := [0],
          oracle_calls := [OracleCall.IsNodeSupported 0, OracleCall.IsNodeSupported 1,
            OracleCall.IsNodeSupportedWithFusion 1] } ∧
      map_find 1 [((0 : Nat), (0 : Nat))] = none) ∧
    (run_pass qdq_graph example_externals =
      Outcome.ok
        { capabilities := [{ nodes := [0, 1, 2], meta_def := some (1, 1),
                             use_existing_schema := true }],
          supported_nodes := [1], node_to_compute_capability := [(1, 0)],
          node_unit_supported_result := [(0, true)], nodeIndex_map := [0, 1, 2],
          oracle_calls := [] } ∧
      map_find 0 [((1 : Nat), (0 : Nat))] = none ∧
      map_find 2 [((1 : Nat), (0 : Nat))] = none) ∧
    ¬ (∀ s : PassState (NodeIndex × NodeIndex), Reachable pool_relu_graph example_externals s →
        ∀ i ∈ claimed_nodes s.capabilities,
          (map_find i s.node_to_compute_capability).isSome = true) := by
  refine ⟨⟨by decide, by decide⟩, ⟨by decide, by decide, by decide⟩, ?_⟩
  intro h
  have hr := run_pass_reachable pool_relu_graph example_externals _
    (by decide : run_pass pool_relu_graph example_externals =
      Outcome.ok
        { capabilities := [{ nodes := [0, 1], meta_def := some (0, 1),
                             use_existing_schema := true }],
          supported_nodes := [0], node_to_compute_capability := [(0, 0)],
          node_unit_supported_result := [(0, true), (1, false)], nodeIndex_map := [0],
          oracle_calls := [OracleCall.IsNodeSupported 0, OracleCall.IsNodeSupported 1,
            OracleCall.IsNodeSupportedWithFusion 1] })
  have := h _ hr 1 (by decide)
  revert this
  decide

/-! ## Native support comes first -/

theorem createSingleNodes_congr {M : Type} (E E2 : Externals M)
    (h : E2.default_use_existing_schema = E.default_use_existing_schema)
    (node : NodeIndex) (L : List NodeIndex) (s : PassState M) :
    createSingleNodes E2 node L s = createSingleNodes E node L s := by
  induction L generalizing s with
  | nil => rfl
  | cons i rest ih =>
    have h1 : createSingleNode E2 node s i = createSingleNode E node s i := by
      simp only [createSingleNode, h]
    simp only [createSingleNodes, h1]
    cases createSingleNode E node s i with
    | ok m => simp [Outcome.bind, ih]
    | fatal m => rfl

theorem record_and_request_congr {M : Type} (E E2 : Externals M)
    (h : E2.default_use_existing_schema = E.default_use_existing_schema)
    (node : Node) (p : Nat) (u : NodeUnit) (b : Bool) (s : PassState M) :
    record_and_request E2 node p u b s = record_and_request E node p u b s := by
  cases b with
  | false => simp [record_and_request_false]
  | true => simp only [record_and_request_true, createSingleNodes_congr E E2 h]

theorem members_fresh_of_undecided {M : Type} (g : GraphViewer) (E : Externals M)
    (s : PassState M) (idx : NodeIndex) (hp : UnitsPartition g) (hr : Reachable g E s)
    (hidx : idx ∈ g.NodesInTopologicalOrder) (hd : ¬ decided s (g.node_unit_map idx)) :
    ∀ m ∈ (g.node_unit_holder (g.node_unit_map idx)).members,
      m ∉ s.nodeIndex_map ∧ m ∉ claimed_nodes s.capabilities := by
  intro m hm
  have hc : m ∉ claimed_nodes s.capabilities := by
    intro hmc
    have := (hr.excl hp).claimed_decided m hmc
    rw [hp idx hidx m hm] at this
    exact hd this
  exact ⟨fun hs => hc (hr.sync.seen_claimed m hs), hc⟩

/-- C11: when an unassigned node is visited whose undecided unit the oracle
reports natively supported, the outcome of the iteration is the same whatever the
fusion oracle is (it is not consulted: the trace gains the native query only);
when the iteration succeeds it appends one single-node capability per requested
member of the unit, among them the one of the unit's core node, and every
capability that existed before is unchanged; and in a pass over a graph whose
units form a partition it does succeed when the requested members are pairwise
different. -/
theorem native_support_first {M : Type} (g : GraphViewer) (E : Externals M)
    (s : PassState M) (idx : NodeIndex) (node : Node)
    (hg : g.GetNode idx = some node)
    (hu : node.ExecutionProviderType = "") (hd : ¬ decided s (g.node_unit_map idx))
    (hs : E.IsNodeSupported s.supported_nodes
      (g.node_unit_holder (g.node_unit_map idx)) = true) :
    (∀ F : List NodeIndex → Node → Option NodeIndex,
      visit g { E with IsNodeSupportedWithFusion := F } s idx = visit g E s idx) ∧
    (∀ s1, visit g E s idx = Outcome.ok s1 →
      s1.capabilities = s.capabilities ++
        (requested_members (g.node_unit_holder (g.node_unit_map idx))).map
          (fun i => { nodes := [i], meta_def := none,
                      use_existing_schema := E.default_use_existing_schema }) ∧
      ({ nodes := [(g.node_unit_holder (g.node_unit_map idx)).Index], meta_def := none,
         use_existing_schema := E.default_use_existing_schema } : IndexedSubGraph M)
        ∈ s1.capabilities ∧
      s.capabilities.length < s1.capabilities.length ∧
      (∀ (j : Nat) cap, s.capabilities[j]? = some cap → s1.capabilities[j]? = some cap) ∧
      s1.oracle_calls =
        s.oracle_calls ++ [OracleCall.IsNodeSupported (g.node_unit_map idx)]) ∧
    (UnitsPartition g → Reachable g E s → idx ∈ g.NodesInTopologicalOrder →
      (requested_members (g.node_unit_holder (g.node_unit_map idx))).Nodup →
      ∃ s1, visit g E s idx = Outcome.ok s1) := by
  have hv := visit_native g E s idx node hg hu hd hs
  refine ⟨?_, ?_, ?_⟩
  · intro F
    rw [hv, visit_native g { E with IsNodeSupportedWithFusion := F } s idx node hg hu hd hs]
    exact record_and_request_congr E { E with IsNodeSupportedWithFusion := F } rfl _ _ _ _ _
  · intro s1 h1
    rw [hv, native_request_eq] at h1
    obtain ⟨_, _, rfl⟩ := h1
    have hcore : (g.node_unit_holder (g.node_unit_map idx)).Index ∈
        requested_members (g.node_unit_holder (g.node_unit_map idx)) := by
      simp [requested_members]
    have hpos : 0 < (requested_members (g.node_unit_holder (g.node_unit_map idx))).length :=
      List.length_pos.2 (requested_members_ne_nil _)
    refine ⟨rfl, ?_, ?_, ?_, rfl⟩
    · simp only [grow, List.mem_append, List.mem_map]
      exact Or.inr ⟨_, hcore, rfl⟩
    · simp only [grow, List.length_append, List.length_map]
      omega
    · intro j cap hj
      have hlt : j < s.capabilities.length := by
        by_contra hge
        rw [List.getElem?_eq_none (Nat.le_of_not_lt hge)] at hj
        cases hj
      simp only [grow]
      rw [List.getElem?_append_left hlt]
      exact hj
  · intro hp hr hidx hnd
    rw [hv]
    refine ⟨_, (native_request_eq E node _ _ s _ _).2 ⟨hnd, ?_, rfl⟩⟩
    intro m hm
    exact (members_fresh_of_undecided g E s idx hp hr hidx hd m
      (requested_members_subset _ m hm)).1

/-- C11 on the pool-and-Relu graph: the pool node is claimed by its own
capability also under an oracle that reports every node fusable onto node 0. -/
theorem native_support_first_witness :
    visit pool_relu_graph
      { example_externals with IsNodeSupportedWithFusion := fun _ _ => some 0 }
      (PassState.init (NodeIndex × NodeIndex)) 0 =
    visit pool_relu_graph example_externals (PassState.init (NodeIndex × NodeIndex)) 0 ∧
    visit pool_relu_graph example_externals (PassState.init (NodeIndex × NodeIndex)) 0 =
      Outcome.ok
        { capabilities := [{ nodes := [0], meta_def := none, use_existing_schema := false }],
          supported_nodes := [0], node_to_compute_capability := [(0, 0)],
          node_unit_supported_result := [(0, true)], nodeIndex_map := [0],
          oracle_calls := [OracleCall.IsNodeSupported 0] } :=
  ⟨(native_support_first pool_relu_graph example_externals
      (PassState.init (NodeIndex × NodeIndex)) 0 { Index := 0, ExecutionProviderType := "" }
      (by decide) (by decide) (by decide) (by decide)).1 (fun _ _ => some 0),
   by decide⟩

/-! ## The average-pool support check, case by case -/

theorem dim_static_iff (x_shape : List (Option Int)) (i : Nat) :
    (x_shape.getD i none).isNone = false ↔ ∃ v, x_shape[i]? = some (some v) := by
  rw [List.getD_eq_getElem?_getD]
  cases h : x_shape[i]? with
  | none => simp
  | some o =>
    cases o with
    | none => simp
    | some v => simp

theorem kernel_ok_iff (k : List Int) :
    ¬ (k.length ≠ 2 ∨ (k.getD 0 0 = 1 ∧ k.getD 1 0 = 1)) ↔ k.length = 2 ∧ k ≠ [1, 1] := by
  match k with
  | [] => simp
  | [a] => simp
  | [a, b] => simp
  | a :: b :: c :: rest => simp

theorem IsQuantAvgPoolSupported_iff (u : AveragePoolUnit) :
    IsQuantAvgPoolSupported u = true ↔
      u.Inputs.length = 1 ∧ u.x_input_type = xnn_datatype.xnn_datatype_quint8 ∧
      u.output_type = xnn_datatype.xnn_datatype_quint8 := by
  unfold IsQuantAvgPoolSupported
  by_cases h1 : u.Inputs.length = 1 <;>
    by_cases h2 : u.x_input_type = xnn_datatype.xnn_datatype_quint8 <;>
    by_cases h3 : u.output_type = xnn_datatype.xnn_datatype_quint8 <;>
    simp [h1, h2, h3]

theorem average_pool_true_iff (P : AutoPadType → Bool) (u : AveragePoolUnit) :
    IsAveragePoolOnnxNodeSupported P u = some true ↔ AveragePoolSupportedSpec P u := by
  have hquant := IsQuantAvgPoolSupported_iff u
  unfold IsAveragePoolOnnxNodeSupported AveragePoolSupportedSpec
  by_cases hq : u.is_quantized_avg_pool = true ∧ IsQuantAvgPoolSupported u = false
  · rw [if_pos hq]
    constructor
    · intro h
      cases h
    · rintro ⟨h1, _⟩
      have := hquant.2 (h1 hq.1)
      rw [hq.2] at this
      cases this
  · rw [if_neg hq]
    have hfirst : u.is_quantized_avg_pool = true →
        u.Inputs.length = 1 ∧ u.x_input_type = xnn_datatype.xnn_datatype_quint8 ∧
        u.output_type = xnn_datatype.xnn_datatype_quint8 := by
      intro hqt
      apply hquant.1
      by_contra hne
      exact hq ⟨hqt, by simpa using hne⟩
    cases hI : u.Inputs with
    | nil => simp
    | cons x_arg rest =>
      dsimp only
      cases hS : x_arg.Shape with
      | none =>
        simp [hS]
      | some x_shape =>
        dsimp only
        simp only [List.cons.injEq, Option.some.injEq]
        by_cases hlen : x_shape.length = 4
        · by_cases hdims : (x_shape.getD 1 none).isNone = false ∧
              (x_shape.getD 2 none).isNone = false ∧ (x_shape.getD 3 none).isNone = false
          · have hd1 := (dim_static_iff x_shape 1).1 hdims.1
            have hd2 := (dim_static_iff x_shape 2).1 hdims.2.1
            have hd3 := (dim_static_iff x_shape 3).1 hdims.2.2
            have hnot : ¬ ((x_shape.getD 1 none).isNone = true ∨
                (x_shape.getD 2 none).isNone = true ∨ (x_shape.getD 3 none).isNone = true) := by
              rintro (h | h | h)
              · rw [hdims.1] at h
                cases h
              · rw [hdims.2.1] at h
                cases h
              · rw [hdims.2.2] at h
                cases h
            rw [if_neg (by simp [hlen]), if_neg hnot]
            cases hP : u.pool_attrs with
            | none => simp
            | some pool_attrs =>
              dsimp only
              by_cases hc : pool_attrs.ceil_mode = 0
              · by_cases hpad : P pool_attrs.auto_pad = true
                · by_cases hk : pool_attrs.kernel_shape.length ≠ 2 ∨
                      (pool_attrs.kernel_shape.getD 0 0 = 1 ∧ pool_attrs.kernel_shape.getD 1 0 = 1)
                  · rw [if_neg (by simp [hc]), if_neg (by simp [hpad]), if_pos hk]
                    constructor
                    · intro h
                      cases h
                    · rintro ⟨_, _, pa, hpa, _, _, hk1, hk2⟩
                      cases hpa
                      exact absurd hk ((kernel_ok_iff _).2 ⟨hk1, hk2⟩)
                  · rw [if_neg (by simp [hc]), if_neg (by simp [hpad]), if_neg hk]
                    have hk2 := (kernel_ok_iff _).1 hk
                    simp only [true_iff]
                    exact ⟨hI ▸ hfirst, ⟨x_arg, rest, x_shape, ⟨rfl, rfl⟩, hS, hlen, hd1, hd2, hd3⟩,
                      ⟨pool_attrs, rfl, hc, hpad, hk2.1, hk2.2⟩⟩
                · rw [if_neg (by simp [hc]), if_pos (by simp [hpad])]
                  constructor
                  · intro h
                    cases h
                  · rintro ⟨_, _, pa, hpa, _, hp2, _⟩
                    cases hpa
                    exact absurd hp2 hpad
              · rw [if_pos hc]
                constructor
                · intro h
                  cases h
                · rintro ⟨_, _, pa, hpa, hc2, _⟩
                  cases hpa
                  exact absurd hc2 hc
          · have hor : (x_shape.getD 1 none).isNone = true ∨
                (x_shape.getD 2 none).isNone = true ∨ (x_shape.getD 3 none).isNone = true := by
              by_contra hcon
              apply hdims
              simp only [not_or, Bool.not_eq_true] at hcon
              exact hcon
            rw [if_neg (by simp [hlen]), if_pos hor]
            constructor
            · intro h
              cases h
            · rintro ⟨_, ⟨xa, r, sh, ⟨hxa, _⟩, hsh, _, h1, h2, h3⟩, _⟩
              subst hxa
              rw [hS] at hsh
              cases hsh
              exact (hdims ⟨(dim_static_iff _ 1).2 h1, (dim_static_iff _ 2).2 h2,
                (dim_static_iff _ 3).2 h3⟩).elim
        · rw [if_pos hlen]
          constructor
          · intro h
            cases h
          · rintro ⟨_, ⟨xa, r, sh, ⟨hxa, _⟩, hsh, hl, _⟩, _⟩
            subst hxa
            rw [hS] at hsh
            cases hsh
            exact (hlen hl).elim

theorem average_pool_defined (P : AutoPadType → Bool) (u : AveragePoolUnit)
    (hI : u.Inputs ≠ []) (hP : u.pool_attrs ≠ none) :
    ∃ b, IsAveragePoolOnnxNodeSupported P u = some b := by
  unfold IsAveragePoolOnnxNodeSupported
  split
  · exact ⟨false, rfl⟩
  · cases hi : u.Inputs with
    | nil => exact absurd hi hI
    | cons x_arg rest =>
      dsimp only
      cases x_arg.Shape with
      | none => exact ⟨false, rfl⟩
      | some x_shape =>
        dsimp only
        split
        · exact ⟨false, rfl⟩
        · split
          · exact ⟨false, rfl⟩
          · cases hp : u.pool_attrs with
            | none => exact absurd hp hP
            | some pool_attrs =>
              dsimp only
              split
              · exact ⟨false, rfl⟩
              · split
                · exact ⟨false, rfl⟩
                · split
                  · exact ⟨false, rfl⟩
                  · exact ⟨true, rfl⟩

/-- C12: `IsAveragePoolOnnxNodeSupported` returns true if and only if all the
listed conditions hold; and on an average-pool unit, which has its input and its
constructed `PoolAttributes`, it returns false, not a failure, in every other
case. -/
theorem average_pool_support_iff (IsPaddingTypeSupported : AutoPadType → Bool)
    (nodeunit : AveragePoolUnit) :
    (IsAveragePoolOnnxNodeSupported IsPaddingTypeSupported nodeunit = some true ↔
      AveragePoolSupportedSpec IsPaddingTypeSupported nodeunit) ∧
    (nodeunit.Inputs ≠ [] → nodeunit.pool_attrs ≠ none →
      ¬ AveragePoolSupportedSpec IsPaddingTypeSupported nodeunit →
      IsAveragePoolOnnxNodeSupported IsPaddingTypeSupported nodeunit = some false) := by
  refine ⟨average_pool_true_iff IsPaddingTypeSupported nodeunit, ?_⟩
  intro hI hP hspec
  obtain ⟨b, hb⟩ := average_pool_defined IsPaddingTypeSupported nodeunit hI hP
  cases b with
  | false => exact hb
  | true => exact absurd ((average_pool_true_iff IsPaddingTypeSupported nodeunit).1 hb) hspec

/-- C12 on a float pool with input shape [?, 8, 8, 3]: supported with
a 2x2 kernel, reported unsupported with a 1x1 kernel. -/
theorem average_pool_support_iff_witness :
    AveragePoolSupportedSpec example_padding_check two_by_two_pool ∧
    IsAveragePoolOnnxNodeSupported example_padding_check two_by_two_pool = some true ∧
    IsAveragePoolOnnxNodeSupported example_padding_check one_by_one_pool = some false :=
  ⟨(average_pool_support_iff example_padding_check two_by_two_pool).1.1 (by decide),
   by decide,
   (average_pool_support_iff example_padding_check one_by_one_pool).2 (by decide) (by decide)
     (by
       rintro ⟨_, _, pool_attrs, h, _, _, _, hk⟩
       cases h
       exact hk rfl)⟩

/-! ## The pattern fusion transformer at its fixed point -/

theorem scan_nodes_flag_true (pat : FusionPattern) (L : List Nat) (graph : FusionGraph) :
    (scan_nodes pat L graph true).2 = true := by
  induction L generalizing graph with
  | nil => rfl
  | cons i rest ih =>
    simp only [scan_nodes]
    cases graph.GetNode i with
    | none => exact ih graph
    | some anchor =>
      dsimp only
      cases match_pattern pat graph anchor with
      | none => exact ih graph
      | some c => exact ih _

theorem scan_nodes_unmodified (pat : FusionPattern) (L : List Nat) (graph : FusionGraph)
    (h : (scan_nodes pat L graph false).2 = false) :
    (scan_nodes pat L graph false).1 = graph := by
  induction L generalizing graph with
  | nil => rfl
  | cons i rest ih =>
    simp only [scan_nodes] at h ⊢
    cases hg : graph.GetNode i with
    | none =>
      simp only [hg] at h ⊢
      exact ih graph h
    | some anchor =>
      simp only [hg] at h ⊢
      cases hm : match_pattern pat graph anchor with
      | none =>
        simp only [hm] at h ⊢
        exact ih graph h
      | some c =>
        simp only [hm] at h
        rw [scan_nodes_flag_true] at h
        cases h

theorem filter_length_add_one {α : Type} (p : α → Bool) (l : List α) (a : α)
    (ha : a ∈ l) (hpa : p a = false) : (l.filter p).length + 1 ≤ l.length := by
  induction l with
  | nil => cases ha
  | cons x t ih =>
    rcases List.mem_cons.1 ha with rfl | hat
    · simp only [List.filter_cons, hpa, Bool.false_eq_true, if_false, List.length_cons]
      have := List.length_filter_le p t
      omega
    · have := ih hat
      by_cases hx : p x = true
      · simp only [List.filter_cons, hx, if_true, List.length_cons]
        omega
      · have hx2 : p x = false := by simpa using hx
        simp only [List.filter_cons, hx2, Bool.false_eq_true, if_false, List.length_cons]
        omega

theorem filter_length_add_two {α : Type} (p : α → Bool) (l : List α) (a b : α)
    (ha : a ∈ l) (hb : b ∈ l) (hab : a ≠ b) (hpa : p a = false) (hpb : p b = false) :
    (l.filter p).length + 2 ≤ l.length := by
  induction l with
  | nil => cases ha
  | cons x t ih =>
    by_cases hxa : x = a
    · subst hxa
      have hbt : b ∈ t := by
        rcases List.mem_cons.1 hb with e | e
        · exact absurd e.symm hab
        · exact e
      have := filter_length_add_one p t b hbt hpb
      simp only [List.filter_cons, hpa, Bool.false_eq_true, if_false, List.length_cons]
      omega
    · by_cases hxb : x = b
      · subst hxb
        have hat : a ∈ t := by
          rcases List.mem_cons.1 ha with e | e
          · exact absurd e hab
          · exact e
        have := filter_length_add_one p t a hat hpa
        simp only [List.filter_cons, hpb, Bool.false_eq_true, if_false, List.length_cons]
        omega
      · have hat : a ∈ t := by
          rcases List.mem_cons.1 ha with e | e
          · exact absurd e.symm hxa
          · exact e
        have hbt : b ∈ t := by
          rcases List.mem_cons.1 hb with e | e
          · exact absurd e.symm hxb
          · exact e
        have := ih hat hbt
        by_cases hx : p x = true
        · simp only [List.filter_cons, hx, if_true, List.length_cons]
          omega
        · have hx2 : p x = false := by simpa using hx
          simp only [List.filter_cons, hx2, Bool.false_eq_true, if_false, List.length_cons]
          omega

theorem match_pattern_some (pat : FusionPattern) (graph : FusionGraph) (anchor c : FusionNode)
    (h : match_pattern pat graph anchor = some c) :
    anchor.op_type = pat.anchor_op ∧ c.op_type = pat.consumer_op ∧ c ∈ graph.nodes := by
  unfold match_pattern at h
  by_cases ha : anchor.op_type = pat.anchor_op
  · rw [if_pos ha] at h
    refine ⟨ha, ?_⟩
    cases ho : anchor.outputs with
    | nil => simp [ho] at h
    | cons v rest =>
      cases rest with
      | cons v2 rest2 => simp [ho] at h
      | nil =>
        simp only [ho] at h
        cases hc : graph.consumers v with
        | nil => simp [hc] at h
        | cons c0 crest =>
          cases crest with
          | cons c1 crest2 => simp [hc] at h
          | nil =>
            simp only [hc] at h
            by_cases hcond : c0.op_type = pat.consumer_op ∧ pat.consumer_ok c0 = true ∧
                v ∉ graph.outputs
            · rw [if_pos hcond] at h
              cases h
              refine ⟨hcond.1, ?_⟩
              have hmem : c ∈ graph.consumers v := by simp [hc]
              exact (List.mem_filter.1 hmem).1
            · rw [if_neg hcond] at h
              cases h
  · rw [if_neg ha] at h
    cases h

theorem fuse_nodes_length (pat : FusionPattern) (graph : FusionGraph) (anchor c : FusionNode)
    (hne : pat.anchor_op ≠ pat.consumer_op) (i : Nat) (hg : graph.GetNode i = some anchor)
    (hm : match_pattern pat graph anchor = some c) :
    (fuse_nodes pat graph anchor c).nodes.length < graph.nodes.length := by
  obtain ⟨h1, h2, hc⟩ := match_pattern_some pat graph anchor c hm
  have ha : anchor ∈ graph.nodes := List.mem_of_find?_eq_some hg
  have hac : anchor ≠ c := by
    intro e
    rw [e, h2] at h1
    exact hne h1.symm
  have := filter_length_add_two (fun n => decide (n ≠ anchor) && decide (n ≠ c)) graph.nodes
    anchor c ha hc hac (by simp) (by simp)
  simp only [fuse_nodes, List.length_append, List.length_singleton]
  omega

theorem scan_nodes_length_le (pat : FusionPattern) (hne : pat.anchor_op ≠ pat.consumer_op)
    (L : List Nat) (graph : FusionGraph) (modified : Bool) :
    (scan_nodes pat L graph modified).1.nodes.length ≤ graph.nodes.length := by
  induction L generalizing graph modified with
  | nil => exact Nat.le_refl _
  | cons i rest ih =>
    simp only [scan_nodes]
    cases hg : graph.GetNode i with
    | none => exact ih graph modified
    | some anchor =>
      dsimp only
      cases hm : match_pattern pat graph anchor with
      | none => exact ih graph modified
      | some c =>
        exact Nat.le_trans (ih _ true)
          (Nat.le_of_lt (fuse_nodes_length pat graph anchor c hne i hg hm))

theorem scan_nodes_length_lt (pat : FusionPattern) (hne : pat.anchor_op ≠ pat.consumer_op)
    (L : List Nat) (graph : FusionGraph)
    (h : (scan_nodes pat L graph false).2 = true) :
    (scan_nodes pat L graph false).1.nodes.length < graph.nodes.length := by
  induction L generalizing graph with
  | nil => cases h
  | cons i rest ih =>
    simp only [scan_nodes] at h ⊢
    cases hg : graph.GetNode i with
    | none =>
      simp only [hg] at h ⊢
      exact ih graph h
    | some anchor =>
      simp only [hg] at h ⊢
      cases hm : match_pattern pat graph anchor with
      | none =>
        simp only [hm] at h ⊢
        exact ih graph h
      | some c =>
        simp only [hm]
        exact Nat.lt_of_le_of_lt (scan_nodes_length_le pat hne rest _ true)
          (fuse_nodes_length pat graph anchor c hne i hg hm)

theorem ApplyImpl_unmodified (fused_op : String) (consumer_ok : FusionNode → Bool)
    (graph : FusionGraph)
    (h : (FusedSoftmaxFusion.ApplyImpl fused_op consumer_ok graph).2 = false) :
    FusedSoftmaxFusion.ApplyImpl fused_op consumer_ok graph = (graph, false) := by
  have h1 := scan_nodes_unmodified _ _ graph h
  exact Prod.ext h1 h

theorem ApplyImpl_shrinks (fused_op : String) (consumer_ok : FusionNode → Bool)
    (graph : FusionGraph)
    (h : (FusedSoftmaxFusion.ApplyImpl fused_op consumer_ok graph).2 = true) :
    (FusedSoftmaxFusion.ApplyImpl fused_op consumer_ok graph).1.nodes.length <
      graph.nodes.length :=
  scan_nodes_length_lt _ (show ("Where" : String) ≠ "Softmax" by decide) _ graph h

theorem run_to_fixed_point_is_fixed (fused_op : String) (consumer_ok : FusionNode → Bool)
    (fuel : Nat) (graph fixed : FusionGraph)
    (h : run_to_fixed_point fused_op consumer_ok fuel graph = some fixed) :
    FusedSoftmaxFusion.ApplyImpl fused_op consumer_ok fixed = (fixed, false) := by
  induction fuel generalizing graph with
  | zero => cases h
  | succ n ih =>
    simp only [run_to_fixed_point] at h
    by_cases hm : (FusedSoftmaxFusion.ApplyImpl fused_op consumer_ok graph).2 = true
    · rw [if_pos hm] at h
      exact ih _ h
    · rw [if_neg hm] at h
      have hf : (FusedSoftmaxFusion.ApplyImpl fused_op consumer_ok graph).2 = false := by
        simpa using hm
      have hu := ApplyImpl_unmodified fused_op consumer_ok graph hf
      rw [hu] at h
      simp only [Option.some.injEq] at h
      rw [← h]
      exact hu

theorem run_to_fixed_point_terminates (fused_op : String) (consumer_ok : FusionNode → Bool)
    (fuel : Nat) (graph : FusionGraph) (h : graph.nodes.length < fuel) :
    ∃ fixed, run_to_fixed_point fused_op consumer_ok fuel graph = some fixed := by
  induction fuel generalizing graph with
  | zero => cases h
  | succ n ih =>
    simp only [run_to_fixed_point]
    by_cases hm : (FusedSoftmaxFusion.ApplyImpl fused_op consumer_ok graph).2 = true
    · rw [if_pos hm]
      have := ApplyImpl_shrinks fused_op consumer_ok graph hm
      exact ih _ (by omega)
    · rw [if_neg hm]
      exact ⟨_, rfl⟩

/-- C13: for every graph, whatever graph the fixed-point driver ends with
(after any number of calls of `FusedSoftmaxFusion::ApplyImpl`, the last of which
reported no modification), a further call on that graph reports
modified = false and returns the graph unchanged; and the driver does reach such
a graph, within one call more than the graph has nodes. -/
theorem fusion_fixed_point_idempotent (fused_op : String) (consumer_ok : FusionNode → Bool)
    (graph : FusionGraph) :
    (∀ fuel fixed, run_to_fixed_point fused_op consumer_ok fuel graph = some fixed →
      FusedSoftmaxFusion.ApplyImpl fused_op consumer_ok fixed = (fixed, false)) ∧
    (∃ fixed, run_to_fixed_point fused_op consumer_ok (graph.nodes.length + 1) graph =
      some fixed) :=
  ⟨fun fuel fixed h => run_to_fixed_point_is_fixed fused_op consumer_ok fuel graph fixed h,
   run_to_fixed_point_terminates fused_op consumer_ok _ graph (Nat.lt_succ_self _)⟩

/-- C13 on a `Where` node feeding one `Softmax` node: the first call fuses
them and reports a modification, the next call reports none, and a further call
on the fused graph changes nothing. -/
theorem fusion_fixed_point_idempotent_witness :
    FusedSoftmaxFusion.ApplyImpl "FusedSoftmax" (fun _ => true) where_softmax_graph =
      ({ nodes := [{ index := 2, op_type := "FusedSoftmax", inputs := [1, 2, 3],
                     outputs := [5], attributes := [("axis", -1)] }],
         outputs := [5] }, true) ∧
    FusedSoftmaxFusion.ApplyImpl "FusedSoftmax" (fun _ => true)
      { nodes := [{ index := 2, op_type := "FusedSoftmax", inputs := [1, 2, 3],
                    outputs := [5], attributes := [("axis", -1)] }],
        outputs := [5] } =
      ({ nodes := [{ index := 2, op_type := "FusedSoftmax", inputs := [1, 2, 3],
                     outputs := [5], attributes := [("axis", -1)] }],
         outputs := [5] }, false) :=
  ⟨by decide,
   (fusion_fixed_point_idempotent "FusedSoftmax" (fun _ => true) where_softmax_graph).1 3
     { nodes := [{ index := 2, op_type := "FusedSoftmax", inputs := [1, 2, 3],
                   outputs := [5], attributes := [("axis", -1)] }],
       outputs := [5] } (by decide)⟩

/-! ## Back-map entries in phase 1 groups -/

theorem two_input_group_partition : UnitsPartition two_input_group_graph := by
  simp [UnitsPartition, two_input_group_graph, NodeUnit.members]

/-- C14, the code at the failing input: on `two_input_group_graph`, whose
units form a partition, the pass creates the capabilities [3], [0], [1], [2] while
visiting node 0 and registers only the first of them, under node 0; the back-map
entry of node 0 thus points at capability 0, whose node list [3] does not hold
index 0. -/
theorem backmap_entry_of_other_member :
    UnitsPartition two_input_group_graph ∧
    run_pass two_input_group_graph group_externals =
      Outcome.ok
        { capabilities := [{ nodes := [3], meta_def := none, use_existing_schema := false },
                           { nodes := [0], meta_def := none, use_existing_schema := false },
                           { nodes := [1], meta_def := none, use_existing_schema := false },
                           { nodes := [2], meta_def := none, use_existing_schema := false }],
          supported_nodes := [0], node_to_compute_capability := [(0, 0)],
          node_unit_supported_result := [(0, true)], nodeIndex_map := [3, 0, 1, 2],
          oracle_calls := [OracleCall.IsNodeSupported 0] } ∧
    map_find 0 [((0 : Nat), (0 : Nat))] = some 0 ∧
    ([IndexedSubGraph.mk [3] (none : Option (NodeIndex × NodeIndex)) false,
      IndexedSubGraph.mk [0] none false, IndexedSubGraph.mk [1] none false,
      IndexedSubGraph.mk [2] none false][0]?).map (fun c => c.nodes) = some [3] ∧
    (0 : Nat) ∉ [(3 : Nat)] := by
  refine ⟨two_input_group_partition, by decide, by decide, by decide, by decide⟩

/-! ## Nodes of other providers -/

theorem visit_not_eligible {M : Type} (g : GraphViewer) (E : Externals M) (s : PassState M)
    (idx : NodeIndex) (h : ¬ eligible g E idx) : visit g E s idx = Outcome.ok s := by
  unfold eligible at h
  unfold visit GraphViewer.GetNode
  cases hp : g.provider idx with
  | none => rfl
  | some ep =>
    rw [hp] at h
    have h1 : ¬ ep = "" := fun e => h (Or.inl (by rw [e]))
    have h2 : ¬ ep = E.ProviderType := fun e => h (Or.inr (by rw [e]))
    simp [h1, h2]

theorem Reachable.decided_eligible {M : Type} {g : GraphViewer} {E : Externals M}
    {s : PassState M} (hr : Reachable g E s) :
    ∀ p, decided s p → ∃ n ∈ g.NodesInTopologicalOrder, g.node_unit_map n = p ∧ eligible g E n := by
  induction hr with
  | init =>
    intro p hp
    simp [decided, PassState.init, map_find] at hp
  | @step s0 s1 idx _ hi hv ih =>
    intro p hp
    by_cases hdp : decided s0 p
    · exact ih p hdp
    · have he : eligible g E idx := by
        by_contra hne
        rw [visit_not_eligible g E s0 idx hne] at hv
        simp only [Outcome.ok.injEq] at hv
        rw [← hv] at hp
        exact hdp hp
      have hpe : p = g.node_unit_map idx := by
        rcases visit_ok_cases g E s0 s1 idx hv with rfl | ⟨_, extra, _, _, hshape⟩
        · exact absurd hp hdp
        · rcases hshape with ⟨b0, rfl⟩ | ⟨P, c, node, _, _, rfl⟩ |
            ⟨b0, k, news, _, _, _, _, _, rfl⟩
          · rcases (isSome_find_assign _ _ _ _).1 hp with e | e
            · exact e
            · exact absurd e hdp
          · rcases (isSome_find_assign _ _ _ _).1 hp with e | e
            · exact e
            · exact absurd e hdp
          · rcases (isSome_find_assign _ _ _ _).1 hp with e | e
            · exact e
            · exact absurd e hdp
      exact ⟨idx, hi, hpe.symm, he⟩

/-- C15 as stated fails: in `mixed_group_graph`, whose units form a
partition, node 0 is tagged with another provider and is in the capability
returned for the group when node 1, tagged with this provider, is visited; in
`mixed_unassigned_group_graph` it gets a capability of its own when the unassigned
node 1 of the natively supported group is visited. -/
theorem other_provider_member_counterexample :
    (UnitsPartition mixed_group_graph ∧
      mixed_group_graph.provider 0 = some "CPUExecutionProvider" ∧
      example_externals.ProviderType = "XnnpackExecutionProvider" ∧
      GetCapability mixed_group_graph example_externals =
        some [{ nodes := [0, 1, 2], meta_def := some (1, 1), use_existing_schema := true }]) ∧
    (UnitsPartition mixed_unassigned_group_graph ∧
      mixed_unassigned_group_graph.provider 0 = some "CPUExecutionProvider" ∧
      GetCapability mixed_unassigned_group_graph group_externals =
        some [{ nodes := [0], meta_def := none, use_existing_schema := false },
              { nodes := [1], meta_def := none, use_existing_schema := false },
              { nodes := [2], meta_def := none, use_existing_schema := false }]) := by
  refine ⟨⟨?_, by decide, by decide, by decide⟩, ⟨?_, by decide, by decide⟩⟩
  · simp [UnitsPartition, mixed_group_graph, NodeUnit.members]
  · simp [UnitsPartition, mixed_unassigned_group_graph, NodeUnit.members]


/-! ## Steps that request a unit -/

theorem visit_own_plain {M : Type} (g : GraphViewer) (E : Externals M) (s : PassState M)
    (idx : NodeIndex) (node : Node) (hg : g.GetNode idx = some node)
    (ht : node.ExecutionProviderType = E.ProviderType) (hne : E.ProviderType ≠ "")
    (hd : ¬ decided s (g.node_unit_map idx))
    (hq : (g.node_unit_holder (g.node_unit_map idx)).UnitType ≠ NodeUnitType.QDQGroup) :
    visit g E s idx =
      record_and_request E node (g.node_unit_map idx)
        (g.node_unit_holder (g.node_unit_map idx)) true s := by
  unfold decided at hd
  simp [visit, hg, hd, ht, hne, hq]

theorem request_eq {M : Type} (E : Externals M) (node : Node) (p : Nat) (u : NodeUnit)
    (s s1 : PassState M) :
    record_and_request E node p u true s = Outcome.ok s1 ↔
      (requested_members u).Nodup ∧ (∀ m ∈ requested_members u, m ∉ s.nodeIndex_map) ∧
      s1 = grow s [] p true node.Index
        ((requested_members u).map (single_node_capability E)) := by
  have h := native_request_eq E node p u s s1 []
  simpa using h

theorem visit_null {M : Type} (g : GraphViewer) (E : Externals M) (s : PassState M)
    (idx : NodeIndex) (hg : g.GetNode idx = none) : visit g E s idx = Outcome.ok s := by
  simp [visit, hg]

/-- The two ways an iteration records an undecided unit as requested: through
`createSingleNode` on every requested member, or through the group claim of the
second call. -/
theorem visit_requested_cases {M : Type} (g : GraphViewer) (E : Externals M)
    (s s1 : PassState M) (idx : NodeIndex)
    (hd : ¬ decided s (g.node_unit_map idx))
    (hv : visit g E s idx = Outcome.ok s1)
    (hm : map_find (g.node_unit_map idx) s1.node_unit_supported_result = some true) :
    (∃ extra,
      (requested_members (g.node_unit_holder (g.node_unit_map idx))).Nodup ∧
      (∀ m ∈ requested_members (g.node_unit_holder (g.node_unit_map idx)),
        m ∉ s.nodeIndex_map) ∧
      ((g.node_unit_holder (g.node_unit_map idx)).UnitType = NodeUnitType.QDQGroup →
        g.provider idx = some "") ∧
      s1 = grow s extra (g.node_unit_map idx) true idx
        ((requested_members (g.node_unit_holder (g.node_unit_map idx))).map
          (single_node_capability E))) ∨
    ((g.node_unit_holder (g.node_unit_map idx)).UnitType = NodeUnitType.QDQGroup ∧
      g.provider idx = some E.ProviderType ∧ E.ProviderType ≠ "" ∧
      (g.node_unit_holder (g.node_unit_map idx)).members.Nodup ∧
      (∀ m ∈ (g.node_unit_holder (g.node_unit_map idx)).members, m ∉ s.nodeIndex_map) ∧
      s1 = grow s [] (g.node_unit_map idx) true
        (g.node_unit_holder (g.node_unit_map idx)).Index
        [{ nodes := (g.node_unit_holder (g.node_unit_map idx)).members,
           meta_def := some (E.FuseQDQGroup (g.node_unit_holder (g.node_unit_map idx))),
           use_existing_schema := true }]) := by
  have hfalse : ∀ extra, s1 = decline s extra (g.node_unit_map idx) false → False := by
    intro extra e
    rw [e] at hm
    simp [decline, map_find_assign] at hm
  have hsame : s1 = s → False := by
    intro e
    rw [e] at hm
    apply hd
    unfold decided
    rw [hm]
    rfl
  cases hg : g.GetNode idx with
  | none =>
    rw [visit_null g E s idx hg] at hv
    exact (hsame (Outcome.ok.inj hv).symm).elim
  | some node =>
    obtain ⟨hidx, hprov⟩ := GetNode_eq_some g idx node hg
    by_cases hu : node.ExecutionProviderType = ""
    · by_cases hs : E.IsNodeSupported s.supported_nodes
          (g.node_unit_holder (g.node_unit_map idx)) = true
      · rw [visit_native g E s idx node hg hu hd hs, native_request_eq] at hv
        obtain ⟨h1, h2, h3⟩ := hv
        refine Or.inl ⟨[OracleCall.IsNodeSupported (g.node_unit_map idx)], h1, h2,
          fun _ => by rw [hprov, hu], ?_⟩
        rw [h3, hidx]
      · have hs2 : E.IsNodeSupported s.supported_nodes
            (g.node_unit_holder (g.node_unit_map idx)) = false := by simpa using hs
        by_cases hq : (g.node_unit_holder (g.node_unit_map idx)).UnitType =
            NodeUnitType.QDQGroup
        · rw [visit_unsupported_qdq g E s idx node hg hu hd hs2 hq] at hv
          exact (hfalse _ (Outcome.ok.inj hv).symm).elim
        · cases hf : E.IsNodeSupportedWithFusion s.supported_nodes node with
          | none =>
            rw [visit_no_fusion g E s idx node hg hu hd hs2 hq hf] at hv
            exact (hfalse _ (Outcome.ok.inj hv).symm).elim
          | some P =>
            rw [visit_fusion g E s idx node P hg hu hd hs2 hq hf] at hv
            cases hc : map_find P s.node_to_compute_capability with
            | none =>
              rw [hc] at hv
              cases hv
            | some c =>
              rw [hc] at hv
              have e := (Outcome.ok.inj hv).symm
              rw [e] at hm
              simp [fuse, map_find_assign] at hm
    · by_cases ht : node.ExecutionProviderType = E.ProviderType
      · have hne : E.ProviderType ≠ "" := fun e => hu (ht.trans e)
        by_cases hq : (g.node_unit_holder (g.node_unit_map idx)).UnitType =
            NodeUnitType.QDQGroup
        · rw [visit_own_qdq g E s idx node hg ht hne hd hq, request_qdq_group_ok_iff] at hv
          obtain ⟨h1, h2, h3⟩ := hv
          exact Or.inr ⟨hq, by rw [hprov, ht], hne, h1, h2, h3⟩
        · rw [visit_own_plain g E s idx node hg ht hne hd hq, request_eq] at hv
          obtain ⟨h1, h2, h3⟩ := hv
          refine Or.inl ⟨[], h1, h2, fun h => absurd h hq, ?_⟩
          rw [h3, hidx]
      · have hne : ¬ eligible g E idx := by
          unfold eligible
          rw [hprov]
          rintro (e | e)
          · exact hu (Option.some.inj e)
          · exact ht (Option.some.inj e)
        rw [visit_not_eligible g E s idx hne] at hv
        exact (hsame (Outcome.ok.inj hv).symm).elim

theorem members_unregistered {M : Type} (g : GraphViewer) (E : Externals M)
    (s : PassState M) (idx : NodeIndex) (hp : UnitsPartition g) (hr : Reachable g E s)
    (hidx : idx ∈ g.NodesInTopologicalOrder) (hd : ¬ decided s (g.node_unit_map idx)) :
    map_find idx s.node_to_compute_capability = none ∧
    ∀ m ∈ (g.node_unit_holder (g.node_unit_map idx)).members,
      map_find m s.node_to_compute_capability = none := by
  have hx := hr.excl hp
  have key : ∀ k, g.node_unit_map k = g.node_unit_map idx →
      map_find k s.node_to_compute_capability = none := by
    intro k hk
    cases hm : map_find k s.node_to_compute_capability with
    | none => rfl
    | some c =>
      have := hx.backmap_decided k (by rw [hm]; rfl)
      rw [hk] at this
      exact absurd this hd
  exact ⟨key idx rfl, fun m hm => key m (hp idx hidx m hm)⟩

/-! ## Activation fusion and duplicates -/

/-- C10 amended: in every state of a pass that has not aborted, the back-map
has an entry for exactly the nodes in `supported_nodes` and every entry points at
an existing capability. The fusion step puts the node in a capability and changes
no back-map entry; the step that claims a group in the second call puts every
member in the capability and changes the entry of no node but the core node; a
step that requests a plain single-node unit appends the capability of the visited
node and leaves that node with an entry. In a pass over a graph whose units form
a partition, the fused node and the group members other than the core node then
have no entry, and the entries of the core node and of the plain node point at
the new capability. -/
theorem backmap_tracks_supported_nodes {M : Type} (g : GraphViewer) (E : Externals M)
    (s : PassState M) (hr : Reachable g E s) :
    (∀ k, k ∈ s.supported_nodes ↔
      (map_find k s.node_to_compute_capability).isSome = true) ∧
    (∀ k c, map_find k s.node_to_compute_capability = some c → c < s.capabilities.length) ∧
    (∀ idx node P c, g.GetNode idx = some node → node.ExecutionProviderType = "" →
      ¬ decided s (g.node_unit_map idx) →
      E.IsNodeSupported s.supported_nodes (g.node_unit_holder (g.node_unit_map idx)) = false →
      (g.node_unit_holder (g.node_unit_map idx)).UnitType ≠ NodeUnitType.QDQGroup →
      E.IsNodeSupportedWithFusion s.supported_nodes node = some P →
      map_find P s.node_to_compute_capability = some c →
      ∃ s1, visit g E s idx = Outcome.ok s1 ∧
        idx ∈ claimed_nodes s1.capabilities ∧
        s1.node_to_compute_capability = s.node_to_compute_capability ∧
        (UnitsPartition g → idx ∈ g.NodesInTopologicalOrder →
          map_find idx s1.node_to_compute_capability = none)) ∧
    (∀ idx node s1, g.GetNode idx = some node →
      node.ExecutionProviderType = E.ProviderType → E.ProviderType ≠ "" →
      ¬ decided s (g.node_unit_map idx) →
      (g.node_unit_holder (g.node_unit_map idx)).UnitType = NodeUnitType.QDQGroup →
      visit g E s idx = Outcome.ok s1 →
      (∀ m ∈ (g.node_unit_holder (g.node_unit_map idx)).members,
        m ∈ claimed_nodes s1.capabilities) ∧
      (∀ k, k ≠ (g.node_unit_holder (g.node_unit_map idx)).Index →
        map_find k s1.node_to_compute_capability =
          map_find k s.node_to_compute_capability) ∧
      (map_find (g.node_unit_holder (g.node_unit_map idx)).Index
        s1.node_to_compute_capability).isSome = true ∧
      (UnitsPartition g → idx ∈ g.NodesInTopologicalOrder →
        map_find (g.node_unit_holder (g.node_unit_map idx)).Index
          s1.node_to_compute_capability = some s.capabilities.length ∧
        ∀ m ∈ (g.node_unit_holder (g.node_unit_map idx)).members,
          m ≠ (g.node_unit_holder (g.node_unit_map idx)).Index →
          map_find m s1.node_to_compute_capability = none)) ∧
    (∀ idx s1, ¬ decided s (g.node_unit_map idx) →
      (g.node_unit_holder (g.node_unit_map idx)).UnitType = NodeUnitType.SingleNode →
      requested_members (g.node_unit_holder (g.node_unit_map idx)) = [idx] →
      visit g E s idx = Outcome.ok s1 →
      map_find (g.node_unit_map idx) s1.node_unit_supported_result = some true →
      s1.capabilities = s.capabilities ++
        [{ nodes := [idx], meta_def := none,
           use_existing_schema := E.default_use_existing_schema }] ∧
      (map_find idx s1.node_to_compute_capability).isSome = true ∧
      (UnitsPartition g → idx ∈ g.NodesInTopologicalOrder →
        map_find idx s1.node_to_compute_capability = some s.capabilities.length)) := by
  refine ⟨hr.sync.backmap_supported, hr.sync.backmap_valid, ?_, ?_, ?_⟩
  · intro idx node P c hg hu hd hs hq hf hc
    have hv := visit_fusion g E s idx node P hg hu hd hs hq hf
    rw [hc] at hv
    have hlt := hr.sync.backmap_valid P c hc
    have hnodeidx := (GetNode_eq_some g idx node hg).1
    refine ⟨_, hv, ?_, rfl, ?_⟩
    · simp only [fuse]
      rw [(claimed_nodes_modify_at_perm E P node c s.capabilities hlt).mem_iff, hnodeidx]
      exact List.mem_cons_self _ _
    · intro hp hidx
      exact (members_unregistered g E s idx hp hr hidx hd).1
  · intro idx node s1 hg ht hne hd hq hv
    rw [visit_own_qdq g E s idx node hg ht hne hd hq, request_qdq_group_ok_iff] at hv
    obtain ⟨_, _, rfl⟩ := hv
    refine ⟨?_, ?_, ?_, ?_⟩
    · intro m hm
      simp only [grow, claimed_nodes_append, List.mem_append]
      right
      simp [claimed_nodes, hm]
    · intro k hk
      simp only [grow, map_find_insert]
      cases map_find k s.node_to_compute_capability with
      | some w => rfl
      | none => simp [Ne.symm hk]
    · simp [grow, isSome_find_insert]
    · intro hp hidx
      obtain ⟨_, hmem⟩ := members_unregistered g E s idx hp hr hidx hd
      constructor
      · have hcore := hmem (g.node_unit_holder (g.node_unit_map idx)).Index
          (by simp [NodeUnit.members])
        simp [grow, map_find_insert, hcore]
      · intro m hm hmc
        simp [grow, map_find_insert, hmem m hm, Ne.symm hmc]
  · intro idx s1 hd hty hreq hv hm
    rcases visit_requested_cases g E s s1 idx hd hv hm with
      ⟨extra, _, _, _, rfl⟩ | ⟨hq, _⟩
    · rw [hreq]
      refine ⟨?_, ?_, ?_⟩
      · simp [grow, single_node_capability]
      · simp [grow, isSome_find_insert]
      · intro hp hidx
        have hnone := (members_unregistered g E s idx hp hr hidx hd).1
        simp [grow, map_find_insert, hnone]
    · rw [hty] at hq
      cases hq

/-- C10 amended, on the pool-and-Relu pass: after the pool node was claimed,
fusing the Relu node 1 leaves it without a back-map entry. -/
theorem backmap_tracks_supported_nodes_witness :
    ∃ s1, visit pool_relu_graph example_externals
        { capabilities := [{ nodes := [0], meta_def := none, use_existing_schema := false }],
          supported_nodes := [0], node_to_compute_capability := [(0, 0)],
          node_unit_supported_result := [(0, true)], nodeIndex_map := [0],
          oracle_calls := [OracleCall.IsNodeSupported 0] } 1 = Outcome.ok s1 ∧
      1 ∈ claimed_nodes s1.capabilities ∧
      s1.node_to_compute_capability = [(0, 0)] ∧
      (UnitsPartition pool_relu_graph → 1 ∈ pool_relu_graph.NodesInTopologicalOrder →
        map_find 1 s1.node_to_compute_capability = none) :=
  (backmap_tracks_supported_nodes pool_relu_graph example_externals
    { capabilities := [{ nodes := [0], meta_def := none, use_existing_schema := false }],
      supported_nodes := [0], node_to_compute_capability := [(0, 0)],
      node_unit_supported_result := [(0, true)], nodeIndex_map := [0],
      oracle_calls := [OracleCall.IsNodeSupported 0] }
    (Reachable.step Reachable.init (by decide : (0 : Nat) ∈ pool_relu_graph.NodesInTopologicalOrder)
      (by decide))).2.2.1 1 { Index := 1, ExecutionProviderType := "" } 0 0
    (by decide) (by decide) (by decide) (by decide) (by decide) (by decide) (by decide)

/-! ## Nodes of other providers: what a pass claims -/

/-- C15 amended: visiting a node whose provider tag is neither empty nor this
provider's name returns the state unchanged, so that the unit is not memoised
either; after a completed pass over a graph whose units form a partition, every
claimed node belongs to a unit one of whose visited nodes is unassigned or tagged
with this provider, so that no node of a unit whose visited nodes are all tagged
with other providers is in a returned capability; and whenever an iteration
records an undecided unit as requested, every member node of the unit is in a
capability afterwards, whatever its own provider tag. -/
theorem other_provider_nodes {M : Type} (g : GraphViewer) (E : Externals M) :
    (∀ (s : PassState M) idx node, g.GetNode idx = some node →
      node.ExecutionProviderType ≠ "" → node.ExecutionProviderType ≠ E.ProviderType →
      visit g E s idx = Outcome.ok s) ∧
    (UnitsPartition g → ∀ caps, GetCapability g E = some caps →
      ∀ i ∈ claimed_nodes caps, ∃ n ∈ g.NodesInTopologicalOrder,
        g.node_unit_map n = g.node_unit_map i ∧ eligible g E n) ∧
    (UnitsPartition g → ∀ caps, GetCapability g E = some caps →
      ∀ i, (∀ n ∈ g.NodesInTopologicalOrder,
          g.node_unit_map n = g.node_unit_map i → ¬ eligible g E n) →
        i ∉ claimed_nodes caps) ∧
    (∀ (s s1 : PassState M) idx, ¬ decided s (g.node_unit_map idx) →
      visit g E s idx = Outcome.ok s1 →
      map_find (g.node_unit_map idx) s1.node_unit_supported_result = some true →
      ∀ m ∈ (g.node_unit_holder (g.node_unit_map idx)).members,
        m ∈ claimed_nodes s1.capabilities) := by
  have key : UnitsPartition g → ∀ caps, GetCapability g E = some caps →
      ∀ i ∈ claimed_nodes caps, ∃ n ∈ g.NodesInTopologicalOrder,
        g.node_unit_map n = g.node_unit_map i ∧ eligible g E n := by
    intro hp caps hcaps i hi
    obtain ⟨s, hrun, rfl⟩ := GetCapability_eq_some g E caps hcaps
    have hr := run_pass_reachable g E s hrun
    exact hr.decided_eligible _ ((hr.excl hp).claimed_decided i hi)
  refine ⟨?_, key, ?_, ?_⟩
  · intro s idx node hg h1 h2
    apply visit_not_eligible
    obtain ⟨_, hprov⟩ := GetNode_eq_some g idx node hg
    unfold eligible
    rw [hprov]
    rintro (e | e)
    · exact h1 (Option.some.inj e)
    · exact h2 (Option.some.inj e)
  · intro hp caps hcaps i hall hi
    obtain ⟨n, hn, hmap, he⟩ := key hp caps hcaps i hi
    exact hall n hn hmap he
  · intro s s1 idx hd hv hm m hmem
    rcases visit_requested_cases g E s s1 idx hd hv hm with
      ⟨extra, _, _, _, rfl⟩ | ⟨_, _, _, _, _, rfl⟩
    · simp only [grow, claimed_nodes_append, claimed_nodes_map_single, List.mem_append]
      right
      simp only [NodeUnit.members, List.mem_append, List.mem_singleton] at hmem
      simp only [requested_members, List.mem_append, List.mem_singleton, List.mem_filter,
        decide_eq_true_eq]
      rcases hmem with (h | h) | h
      · exact Or.inl (Or.inl h)
      · exact Or.inl (Or.inr h)
      · by_cases e : m = (g.node_unit_holder (g.node_unit_map idx)).Index
        · exact Or.inl (Or.inr e)
        · exact Or.inr ⟨h, e⟩
    · simp only [grow, claimed_nodes_append, List.mem_append]
      right
      simp [claimed_nodes, hmem]

/-- C15 amended, on the mixed group: visiting its node 0, which belongs to
another provider, changes nothing; visiting node 1 then requests the group and
node 0 is in the capability. -/
theorem other_provider_nodes_witness :
    visit mixed_group_graph example_externals (PassState.init (NodeIndex × NodeIndex)) 0 =
      Outcome.ok (PassState.init (NodeIndex × NodeIndex)) ∧
    (0 : Nat) ∈ claimed_nodes
      [IndexedSubGraph.mk [0, 1, 2] (some ((1 : Nat), (1 : Nat))) true] :=
  ⟨(other_provider_nodes mixed_group_graph example_externals).1
      (PassState.init (NodeIndex × NodeIndex)) 0
      { Index := 0, ExecutionProviderType := "CPUExecutionProvider" }
      (by decide) (by decide) (by decide),
   (other_provider_nodes mixed_group_graph example_externals).2.2.2
      (PassState.init (NodeIndex × NodeIndex))
      { capabilities := [{ nodes := [0, 1, 2], meta_def := some (1, 1),
                           use_existing_schema := true }],
        supported_nodes := [1], node_to_compute_capability := [(1, 0)],
        node_unit_supported_result := [(0, true)], nodeIndex_map := [0, 1, 2],
        oracle_calls := [] }
      1 (by decide) (by decide) (by decide) 0 (by decide)⟩

end Xnnpack
